import Mathlib

/-!
Verification of the rustyknife parsing core against its natural-language
specification.  The Rust parsers (nom-style combinators over byte slices)
are shallowly embedded as total Lean functions from byte lists to a
four-way parse result: success with remainder, no-match failure, a modelled
panic (a `str::from_utf8(..).unwrap()` receiving invalid bytes), or
exhaustion of the explicit recursion fuel used to embed the recursive
comment grammar and the repetition combinators.
-/

namespace Rk

/-- Result of running an embedded parser: success carries the unconsumed
remainder and the parsed value; `fail` is nom's recoverable no-match error;
`panic` models a Rust panic (an `unwrap()` of a failed conversion);
`fuel` marks exhaustion of the recursion fuel used by the embedding. -/
inductive PResult (α : Type) where
  | ok (rem : List Nat) (val : α)
  | fail
  | panic
  | fuel
deriving DecidableEq

/-- An embedded parser: nom's `Fn(&[u8]) -> IResult<&[u8], O>`. -/
def Parser (α : Type) : Type := List Nat → PResult α

/-- Bytes of an ASCII string literal (each char is one byte). -/
def strBytes (s : String) : List Nat :=
  s.data.map Char.toNat

/-- ASCII decoding with replacement: bytes below 128 become the
corresponding character, all other bytes become U+FFFD.  This models both
`ascii_to_string` from util.rs and `ASCII.decode(.., DecoderTrap::Replace)`:
the two branches of `ascii_to_string` coincide with this per-byte map. -/
def asciiToString (bs : List Nat) : String :=
  String.mk (bs.map (fun b => if b < 128 then Char.ofNat b else Char.ofNat 0xFFFD))

/-- Models `str::from_utf8(bs).unwrap()` at this crate's call sites.  Every
call site guards its input to ASCII-only character classes, so the model
accepts exactly the ASCII byte sequences; a byte at or above 128 stands for
a conversion failure, i.e. a panic of the original `unwrap()`. -/
def fromUtf8Ascii (bs : List Nat) : Option String :=
  if bs.all (fun b => b < 128) then some (String.mk (bs.map Char.ofNat)) else none

/-! ## Generic combinators (mirroring nom) -/

/-- nom `map`. -/
def pmap {α β : Type} (p : Parser α) (f : α → β) : Parser β := fun i =>
  match p i with
  | .ok r v => .ok r (f v)
  | .fail => .fail
  | .panic => .panic
  | .fuel => .fuel

/-- `map` whose function models a fallible `unwrap()`: `none` is a panic. -/
def pmapUnwrap {α β : Type} (p : Parser α) (f : α → Option β) : Parser β := fun i =>
  match p i with
  | .ok r v =>
    match f v with
    | some w => .ok r w
    | none => .panic
  | .fail => .fail
  | .panic => .panic
  | .fuel => .fuel

/-- nom `alt` of two parsers: the second runs only on a recoverable
failure of the first. -/
def palt {α : Type} (p q : Parser α) : Parser α := fun i =>
  match p i with
  | .ok r v => .ok r v
  | .fail => q i
  | .panic => .panic
  | .fuel => .fuel

/-- nom `pair`: run `p`, then `q` on the remainder. -/
def ppair {α β : Type} (p : Parser α) (q : Parser β) : Parser (α × β) := fun i =>
  match p i with
  | .ok r v =>
    match q r with
    | .ok r2 w => .ok r2 (v, w)
    | .fail => .fail
    | .panic => .panic
    | .fuel => .fuel
  | .fail => .fail
  | .panic => .panic
  | .fuel => .fuel

/-- nom `opt`: failure becomes `none` with no input consumed. -/
def popt {α : Type} (p : Parser α) : Parser (Option α) := fun i =>
  match p i with
  | .ok r v => .ok r (some v)
  | .fail => .ok i none
  | .panic => .panic
  | .fuel => .fuel

/-- nom `tag`: match a literal byte sequence. -/
def ptag (t : List Nat) : Parser (List Nat) := fun i =>
  if t.isPrefixOf i then .ok (i.drop t.length) t else .fail

/-- ASCII lowercase of one byte. -/
def lowerB (b : Nat) : Nat :=
  if 65 ≤ b ∧ b ≤ 90 then b + 32 else b

/-- nom `tag_no_case` restricted to ASCII case folding. -/
def ptagNoCase (t : List Nat) : Parser (List Nat) := fun i =>
  if t.length ≤ i.length ∧ (i.take t.length).map lowerB = t.map lowerB then
    .ok (i.drop t.length) (i.take t.length)
  else .fail

/-- nom `terminated`. -/
def pterminated {α β : Type} (p : Parser α) (q : Parser β) : Parser α :=
  pmap (ppair p q) Prod.fst

/-- nom `preceded`. -/
def ppreceded {α β : Type} (p : Parser α) (q : Parser β) : Parser β :=
  pmap (ppair p q) Prod.snd

/-- nom `delimited`. -/
def pdelimited {α β γ : Type} (a : Parser α) (b : Parser β) (c : Parser γ) : Parser β :=
  pmap (ppair a (ppair b c)) (fun x => x.2.1)

/-- nom `separated_pair`. -/
def pseparatedPair {α β γ : Type} (a : Parser α) (b : Parser β) (c : Parser γ) :
    Parser (α × γ) :=
  pmap (ppair a (ppair b c)) (fun x => (x.1, x.2.2))

/-- nom `recognize`: return the consumed input prefix. -/
def precognize {α : Type} (p : Parser α) : Parser (List Nat) := fun i =>
  match p i with
  | .ok r _ => .ok r (i.take (i.length - r.length))
  | .fail => .fail
  | .panic => .panic
  | .fuel => .fuel

/-- `take1_filter` from util.rs: consume one byte satisfying a predicate. -/
def take1_filter (f : Nat → Bool) : Parser Nat := fun i =>
  match i with
  | [] => .fail
  | c :: r => if f c then .ok r c else .fail

/-- Longest prefix of bytes satisfying a class, with the remainder. -/
def spanClass (f : Nat → Bool) : List Nat → List Nat × List Nat
  | [] => ([], [])
  | c :: rest =>
    if f c then
      let p := spanClass f rest
      (c :: p.1, p.2)
    else ([], c :: rest)

/-- `recognize_many0` of a single-byte class parser: a take-while. -/
def many0Class (f : Nat → Bool) : Parser (List Nat) := fun i =>
  .ok (spanClass f i).2 (spanClass f i).1

/-- `recognize_many1` of a single-byte class parser. -/
def many1Class (f : Nat → Bool) : Parser (List Nat) := fun i =>
  match many0Class f i with
  | .ok r bs => if bs.isEmpty then .fail else .ok r bs
  | .fail => .fail
  | .panic => .panic
  | .fuel => .fuel

/-- `many1_char` from util.rs specialised to a byte class: one or more
bytes of the class, each mapped to a character. -/
def many1Chars (f : Nat → Bool) (g : Nat → Char) : Parser String :=
  pmap (many1Class f) (fun bs => String.mk (bs.map g))

/-- nom `fold_many0` with a list accumulator and explicit fuel.  Mirrors
nom's infinite-loop protection: an iteration whose parser succeeds without
consuming input makes the whole repetition fail. -/
def pmany0F {α : Type} (p : Parser α) : Nat → List α → Parser (List α)
  | 0, _, _ => .fuel
  | fuel + 1, acc, i =>
    match p i with
    | .ok r v =>
      if r.length = i.length then .fail
      else pmany0F p fuel (acc ++ [v]) r
    | .fail => .ok i acc
    | .panic => .panic
    | .fuel => .fuel

/-- nom `many0` (collecting), with ample fuel computed from the input. -/
def pmany0 {α : Type} (p : Parser α) : Parser (List α) := fun i =>
  pmany0F p (i.length + 1) [] i

/-- nom `many1` (collecting): the first item must succeed; later items are
folded with the usual loop protection. -/
def pmany1 {α : Type} (p : Parser α) : Parser (List α) := fun i =>
  match p i with
  | .ok r v => pmany0F p (r.length + 1) [v] r
  | .fail => .fail
  | .panic => .panic
  | .fuel => .fuel

/-! ## Lexical layer (rfc5234 classes; the file is absent from the sources,
so these are modelled from the spec's lexical-layer description) -/

/-- Modelled from the spec: the core whitespace class WSP (space, tab),
part of the lexical layer whose source file (rfc5234.rs) is not present. -/
def wspB (b : Nat) : Bool :=
  b = 32 || b = 9

/-- Modelled from the spec: the visible-character class VCHAR (0x21-0x7E),
part of the lexical layer whose source file (rfc5234.rs) is not present. -/
def vcharB (b : Nat) : Bool :=
  33 ≤ b && b ≤ 126

/-- Modelled from the spec: the CRLF line terminator, part of the lexical
layer whose source file (rfc5234.rs) is not present. -/
def crlfTag : Parser (List Nat) :=
  ptag [13, 10]

/-- `vchar` as a character parser. -/
def vchar : Parser Char :=
  pmap (take1_filter vcharB) Char.ofNat

/-- `wsp` as a byte parser. -/
def wsp : Parser Nat :=
  take1_filter wspB

/-! ## rfc5322.rs: comment and folding-whitespace engine -/

/-- `quoted_pair`: backslash followed by a visible or whitespace byte,
producing that character. -/
def quoted_pair : Parser Char := fun i =>
  match i with
  | 92 :: rest =>
    match rest with
    | [] => .fail
    | c :: r2 => if vcharB c || wspB c then .ok r2 (Char.ofNat c) else .fail
  | _ => .fail

/-- `ctext` byte class from rfc5322.rs. -/
def ctextB (b : Nat) : Bool :=
  (33 ≤ b && b ≤ 39) || (42 ≤ b && b ≤ 91) || (93 ≤ b && b ≤ 126)

/-- `fws`: optional (whitespace run then CRLF), then a mandatory
whitespace run; the CRLF is dropped and the two runs are concatenated. -/
def fws : Parser String := fun i =>
  match many0Class wspB i with
  | .ok s0 r0 =>
    match s0 with
    | 13 :: 10 :: rest =>
      match many1Class wspB rest with
      | .ok s1 r1 =>
        match fromUtf8Ascii r0 with
        | none => .panic
        | some a =>
          match fromUtf8Ascii r1 with
          | none => .panic
          | some b => .ok s1 (a ++ b)
      | .fail => .fail
      | .panic => .panic
      | .fuel => .fuel
    | _ =>
      match many1Class wspB i with
      | .ok s1 r1 =>
        match fromUtf8Ascii r1 with
        | none => .panic
        | some b => .ok s1 b
      | .fail => .fail
      | .panic => .panic
      | .fuel => .fuel
  | .fail => .fail
  | .panic => .panic
  | .fuel => .fuel

/-- `ofws`: optional folding whitespace, defaulting to the empty string. -/
def ofws : Parser String :=
  pmap (popt fws) (fun o => o.getD "")

/-- Content of a comment: a text run, a nested comment, or a quoted pair. -/
inductive CommentContent where
  | text (s : String)
  | comment (cs : List CommentContent)
  | qp (c : Char)

/-- One step of `_concat_comment`'s accumulation. -/
def concatCommentStep (st : List CommentContent × String) (c : CommentContent) :
    List CommentContent × String :=
  match c with
  | .text t => (st.1, st.2 ++ t)
  | .qp q => (st.1, st.2.push q)
  | .comment cs =>
    if st.2 = "" then (st.1 ++ [.comment cs], "")
    else (st.1 ++ [.text st.2, .comment cs], "")

/-- `_concat_comment`: merge adjacent text and quoted-pair fragments into
single text nodes, keeping nested comments as distinct nodes. -/
def concatComment (cs : List CommentContent) : List CommentContent :=
  let st := cs.foldl concatCommentStep ([], "")
  if st.2 = "" then st.1 else st.1 ++ [.text st.2]

mutual

/-- `ccontent` (fuelled): a ctext run, a quoted pair, or a nested comment. -/
def ccontentF : Nat → List Nat → PResult CommentContent
  | 0, _ => .fuel
  | fuel + 1, i =>
    match many1Class ctextB i with
    | .ok r bs =>
      match fromUtf8Ascii bs with
      | some s => .ok r (.text s)
      | none => .panic
    | .panic => .panic
    | .fuel => .fuel
    | .fail =>
      match quoted_pair i with
      | .ok r c => .ok r (.qp c)
      | .panic => .panic
      | .fuel => .fuel
      | .fail =>
        match commentF fuel i with
        | .ok r cs => .ok r (.comment cs)
        | .fail => .fail
        | .panic => .panic
        | .fuel => .fuel

/-- `comment` (fuelled): parenthesised, possibly nested comment. -/
def commentF : Nat → List Nat → PResult (List CommentContent)
  | 0, _ => .fuel
  | fuel + 1, i =>
    match ptag [40] i with
    | .ok r _ =>
      match commentLoopF fuel [] r with
      | .ok r2 acc =>
        match ofws r2 with
        | .ok r3 ws =>
          match ptag [41] r3 with
          | .ok r4 _ => .ok r4 (concatComment (acc ++ [.text ws]))
          | .fail => .fail
          | .panic => .panic
          | .fuel => .fuel
        | .fail => .fail
        | .panic => .panic
        | .fuel => .fuel
      | .fail => .fail
      | .panic => .panic
      | .fuel => .fuel
    | .fail => .fail
    | .panic => .panic
    | .fuel => .fuel

/-- The `fold_many0(pair(ofws, ccontent), ..)` loop inside `comment`,
with nom's zero-consumption protection. -/
def commentLoopF : Nat → List CommentContent → List Nat → PResult (List CommentContent)
  | 0, _, _ => .fuel
  | fuel + 1, acc, cur =>
    match ofws cur with
    | .ok mid ws =>
      match ccontentF fuel mid with
      | .fail => .ok cur acc
      | .ok rem cc =>
        if rem.length = cur.length then .fail
        else commentLoopF fuel (acc ++ [.text ws, cc]) rem
      | .panic => .panic
      | .fuel => .fuel
    | .fail => .ok cur acc
    | .panic => .panic
    | .fuel => .fuel

end

/-- `comment` entry point with ample fuel for its input. -/
def comment : Parser (List CommentContent) := fun i =>
  commentF (3 * i.length + 3) i

/-- `cfws`: comments interleaved with folding whitespace, or folding
whitespace alone. -/
def cfws : Parser (List Nat) :=
  palt (precognize (ppair (pmany1 (ppair ofws comment)) ofws)) (precognize fws)


/-! ## rfc2047.rs: encoded words -/

/-- `token` byte class from rfc2047.rs: printable, minus tspecials. -/
def tokenB (b : Nat) : Bool :=
  (33 ≤ b && b ≤ 126) &&
    !(b = 40 || b = 41 || b = 60 || b = 62 || b = 64 || b = 44 || b = 59 || b = 58 ||
      b = 92 || b = 34 || b = 47 || b = 91 || b = 93 || b = 63 || b = 46 || b = 61)

/-- `encoded_text` byte class from rfc2047.rs: printable except `?`. -/
def etextB (b : Nat) : Bool :=
  (33 ≤ b && b ≤ 62) || (64 ≤ b && b ≤ 126)

/-- Is an ASCII hex digit (nom `is_hex_digit`). -/
def hexDigitB (b : Nat) : Bool :=
  (48 ≤ b && b ≤ 57) || (65 ≤ b && b ≤ 70) || (97 ≤ b && b ≤ 102)

/-- Value of an ASCII hex digit. -/
def hexDigitVal (b : Nat) : Nat :=
  if 48 ≤ b && b ≤ 57 then b - 48
  else if 65 ≤ b && b ≤ 70 then b - 55
  else if 97 ≤ b && b ≤ 102 then b - 87
  else 0

/-- The `_qp_encoded_text` loop from rfc2047.rs: `=XY` decodes the hex pair,
`_` becomes a space, any other byte is copied.  An `=` not followed by two
hex digits falls through to the copy branch, so the loop consumes every
byte; `decode_qp`'s surrounding `exact!` therefore always succeeds. -/
def qpLoop : List Nat → List Nat
  | [] => []
  | 61 :: h1 :: h2 :: rest =>
    if hexDigitB h1 && hexDigitB h2 then (hexDigitVal h1 * 16 + hexDigitVal h2) :: qpLoop rest
    else 61 :: qpLoop (h1 :: h2 :: rest)
  | 61 :: rest => 61 :: qpLoop rest
  | 95 :: rest => 32 :: qpLoop rest
  | c :: rest => c :: qpLoop rest

/-- `decode_qp`: total, per the loop above. -/
def decode_qp (bs : List Nat) : Option (List Nat) :=
  some (qpLoop bs)

/-- Value of one base64 alphabet byte. -/
def b64Val (c : Nat) : Option Nat :=
  if 65 ≤ c && c ≤ 90 then some (c - 65)
  else if 97 ≤ c && c ≤ 122 then some (c - 71)
  else if 48 ≤ c && c ≤ 57 then some (c + 4)
  else if c = 43 then some 62
  else if c = 47 then some 63
  else none

/-- Models `base64::decode` (external crate): standard alphabet, canonical
`=` padding allowed only at the end, unpadded final quanta of two or three
characters accepted, a final quantum of one character rejected. -/
def base64Decode : List Nat → Option (List Nat)
  | [] => some []
  | [_] => none
  | [a, b] =>
    match b64Val a, b64Val b with
    | some va, some vb => some [va * 4 + vb / 16]
    | _, _ => none
  | [a, b, c] =>
    match b64Val a, b64Val b, b64Val c with
    | some va, some vb, some vc => some [va * 4 + vb / 16, vb % 16 * 16 + vc / 4]
    | _, _, _ => none
  | a :: b :: c :: d :: rest =>
    match b64Val a, b64Val b with
    | some va, some vb =>
      if c = 61 then
        if d = 61 && rest.isEmpty then some [va * 4 + vb / 16] else none
      else
        match b64Val c with
        | some vc =>
          if d = 61 then
            if rest.isEmpty then some [va * 4 + vb / 16, vb % 16 * 16 + vc / 4] else none
          else
            match b64Val d, base64Decode rest with
            | some vd, some t =>
              some ((va * 4 + vb / 16) :: (vb % 16 * 16 + vc / 4) :: (vc % 4 * 64 + vd) :: t)
            | _, _ => none
        | none => none
    | _, _ => none

/-- `decode_text`: dispatch on the case-folded transfer-encoding token. -/
def decode_text (enc txt : List Nat) : Option (List Nat) :=
  if enc.map lowerB = [113] then decode_qp txt
  else if enc.map lowerB = [98] then base64Decode txt
  else none

/-- The whatwg charset-label database of the external `encoding` crate,
kept abstract: a label either resolves to a total decoder or is unknown. -/
def CharsetDB : Type :=
  String → Option (List Nat → String)

/-- `decode_charset`: decode with the looked-up charset, falling back to
ASCII-with-replacement when the label is unrecognized. -/
def decode_charset (db : CharsetDB) (charset : String) (bytes : List Nat) : String :=
  match db charset with
  | some dec => dec bytes
  | none => asciiToString bytes

/-- `encoded_word` from rfc2047.rs: `=?charset(*lang)?encoding?text?=`,
decoded best-effort (raw text on transfer-decode failure, ASCII fallback
on unknown charset). -/
def encoded_word (db : CharsetDB) : Parser String :=
  pmap
    (ppreceded (ptag (strBytes "=?"))
      (ppair (many1Class tokenB)
        (ppreceded (popt (ppreceded (ptag [42]) (many1Class tokenB)))
          (ppreceded (ptag [63])
            (ppair (many1Class tokenB)
              (ppreceded (ptag [63])
                (pterminated (many1Class etextB) (ptag (strBytes "?=")))))))))
    (fun x =>
      decode_charset db (asciiToString x.1) ((decode_text x.2.1 x.2.2).getD x.2.2))

/-! ## Data model (types.rs is absent from the sources; the entities are
modelled from the spec's data-model section) -/

/-- Modelled from the spec: a parsed IPv4 or IPv6 address (std `IpAddr`). -/
inductive IpAddr where
  | v4 (a b c d : Nat)
  | v6 (groups : List Nat)
deriving DecidableEq

/-- Modelled from the spec: `DotAtom(text)`, a dot-separated atom sequence. -/
structure DotAtom where
  s : String
deriving DecidableEq

/-- Modelled from the spec: `QuotedString(text)`, fully unescaped content. -/
structure QuotedString where
  s : String
deriving DecidableEq

/-- Modelled from the spec: the local part before `@`. -/
inductive LocalPart where
  | dotAtom (a : DotAtom)
  | quoted (q : QuotedString)
deriving DecidableEq

/-- Modelled from the spec: `Domain(text)`, a dot-atom domain name. -/
structure Domain where
  s : String
deriving DecidableEq

/-- Modelled from the spec: an address literal, either an upgraded parsed
IP address or free-form text. -/
inductive AddressLiteral where
  | ip (addr : IpAddr)
  | freeForm (s : String)
deriving DecidableEq

/-- Modelled from the spec: the part after `@`. -/
inductive DomainPart where
  | domain (d : Domain)
  | address (a : AddressLiteral)
deriving DecidableEq

/-- Modelled from the spec: the SMTP-level mailbox `local-part@domain`. -/
structure SmtpMailbox where
  lp : LocalPart
  dp : DomainPart
deriving DecidableEq

/-- Modelled from the spec: a path wrapping a mailbox with a legacy
source route. -/
structure Path where
  mbox : SmtpMailbox
  route : List Domain
deriving DecidableEq

/-- Modelled from the spec: MAIL FROM argument. -/
inductive ReversePath where
  | path (p : Path)
  | null
deriving DecidableEq

/-- Modelled from the spec: RCPT TO argument. -/
inductive ForwardPath where
  | path (p : Path)
  | postMaster (d : Option Domain)
deriving DecidableEq

/-- Modelled from the spec: one ESMTP parameter. -/
structure Param where
  name : String
  value : Option String
deriving DecidableEq

/-! ## Textual IP-address parsing (std `IpAddr::from_str`, modelled) -/

/-- Split a character list on a separator. -/
def splitOnChar (sep : Char) : List Char → List (List Char)
  | [] => [[]]
  | c :: rest =>
    match splitOnChar sep rest with
    | [] => [[c]]
    | h :: t => if c = sep then [] :: h :: t else (c :: h) :: t

/-- One dotted-decimal IPv4 octet: 1-3 digits, no leading zero, ≤ 255. -/
def parseOctet (cs : List Char) : Option Nat :=
  if cs.isEmpty then none
  else if cs.all (fun c => 48 ≤ c.toNat && c.toNat ≤ 57) &&
      cs.length ≤ 3 && (cs.length = 1 || cs.head? ≠ some (Char.ofNat 48)) then
    let v := cs.foldl (fun a c => a * 10 + (c.toNat - 48)) 0
    if v ≤ 255 then some v else none
  else none

/-- Modelled from the spec: textual IPv4 address syntax. -/
def ipv4Parse (cs : List Char) : Option IpAddr :=
  match (splitOnChar (Char.ofNat 46) cs).mapM parseOctet with
  | some [a, b, c, d] => some (.v4 a b c d)
  | _ => none

/-- One IPv6 hex group: 1-4 hex digits. -/
def hexGroupVal (cs : List Char) : Option Nat :=
  if !cs.isEmpty && cs.length ≤ 4 && cs.all (fun c => hexDigitB c.toNat) then
    some (cs.foldl (fun a c => a * 16 + hexDigitVal c.toNat) 0)
  else none

/-- Convert colon-separated segments into 16-bit groups; the final segment
may be a dotted IPv4 address contributing two groups. -/
def segsToGroups : List (List Char) → Option (List Nat)
  | [] => some []
  | [last] =>
    if last.contains (Char.ofNat 46) then
      match ipv4Parse last with
      | some (.v4 a b c d) => some [a * 256 + b, c * 256 + d]
      | _ => none
    else (hexGroupVal last).map (fun v => [v])
  | sg :: rest =>
    match hexGroupVal sg, segsToGroups rest with
    | some v, some t => some (v :: t)
    | _, _ => none

/-- Hex-only segment conversion, for the left side of a `::` elision. -/
def segsToGroupsHex (l : List (List Char)) : Option (List Nat) :=
  l.mapM hexGroupVal

/-- Does the character list contain two adjacent colons? -/
def hasDoubleColon : List Char → Bool
  | [] => false
  | [_] => false
  | c1 :: c2 :: r =>
    if c1 = Char.ofNat 58 && c2 = Char.ofNat 58 then true else hasDoubleColon (c2 :: r)

/-- Modelled from the spec: textual IPv6 address syntax with `::` elision
and optional embedded IPv4 tail. -/
def ipv6Parse (cs : List Char) : Option IpAddr :=
  let segs0 := splitOnChar (Char.ofNat 58) cs
  let segs1 :=
    match segs0 with
    | [] :: [] :: t => [] :: t
    | sg => sg
  let segs :=
    match segs1.reverse with
    | [] :: [] :: t => ([] :: t).reverse
    | _ => segs1
  if hasDoubleColon cs then
    if segs.count [] = 1 then
      let left := segs.takeWhile (fun sg => !sg.isEmpty)
      let right := (segs.dropWhile (fun sg => !sg.isEmpty)).drop 1
      match segsToGroupsHex left, segsToGroups right with
      | some l, some r =>
        if l.length + r.length ≤ 7 then
          some (.v6 (l ++ List.replicate (8 - l.length - r.length) 0 ++ r))
        else none
      | _, _ => none
    else none
  else
    match segsToGroups segs with
    | some gs => if gs.length = 8 then some (.v6 gs) else none
    | none => none

/-- Modelled from the spec: std `IpAddr::from_str`, trying IPv4 then IPv6. -/
def ipParse (s : String) : Option IpAddr :=
  match ipv4Parse s.data with
  | some r => some r
  | none => ipv6Parse s.data

/-- Modelled from the spec: `AddressLiteral::upgrade`, the one-directional
upgrade of a free-form literal whose text is a valid textual IP address. -/
def AddressLiteral.upgrade : AddressLiteral → Option AddressLiteral
  | .freeForm s => (ipParse s).map .ip
  | _ => none


/-! ## rfc5322.rs: quoted strings, atoms, addresses -/

/-- `qtext` byte class (the ASCII part). -/
def qtextAsciiB (b : Nat) : Bool :=
  b = 33 || (35 ≤ b && b ≤ 91) || (93 ≤ b && b ≤ 126)

/-- `_8bit_char` byte class from rfc5322.rs. -/
def eightBitB (b : Nat) : Bool :=
  128 ≤ b && b ≤ 255

/-- `qtext` = ASCII qtext or an 8-bit byte (`alt((take1_filter(..), _8bit_char))`). -/
def qtextB (b : Nat) : Bool :=
  qtextAsciiB b || eightBitB b

/-- Character produced by `qtext`: the byte itself, or U+FFFD for the
`_8bit_char` branch. -/
def qtextChar (b : Nat) : Char :=
  if b < 128 then Char.ofNat b else Char.ofNat 0xFFFD

/-- Content fragment of a quoted string (rfc5322.rs `QContent`, with the
`quoted-string-rfc2047` feature enabled). -/
inductive QContent where
  | literal (s : String)
  | encodedWord (s : String)
  | qp (c : Char)
deriving DecidableEq

/-- `qcontent`: an encoded word, a literal run, or a quoted pair. -/
def qcontent (db : CharsetDB) : Parser QContent :=
  palt (pmap (encoded_word db) QContent.encodedWord)
    (palt (pmap (many1Chars qtextB qtextChar) QContent.literal)
      (pmap quoted_pair QContent.qp))

/-- One step of `_inner_quoted_string`'s post-processing: folding
whitespace before a fragment is kept as a literal fragment, except between
two encoded words, where it is dropped. -/
def innerQsPush (out : List QContent) (ws : Option String) (cont : QContent) :
    List QContent :=
  match ws, cont, out.getLast? with
  | _, .encodedWord _, some (.encodedWord _) => out ++ [cont]
  | some w, _, _ => out ++ [.literal w, cont]
  | none, _, _ => out ++ [cont]

/-- `_inner_quoted_string`: a quoted string not surrounded by CFWS. -/
def _inner_quoted_string (db : CharsetDB) : Parser (List QContent) :=
  pmap
    (pdelimited (ptag [34])
      (ppair (pmany0 (ppair (popt fws) (qcontent db))) (popt fws))
      (ptag [34]))
    (fun x =>
      let out := x.1.foldl (fun out p => innerQsPush out p.1 p.2) []
      match x.2 with
      | some w => out ++ [.literal w]
      | none => out)

/-- `concat_qs`: concatenate the decoded fragments. -/
def concat_qs (l : List QContent) : String :=
  l.foldl
    (fun out qc =>
      match qc with
      | .literal s => out ++ s
      | .encodedWord s => out ++ s
      | .qp c => out.push c)
    ""

/-- `quoted_string`: CFWS-padded quoted string with decoded content. -/
def quoted_string (db : CharsetDB) : Parser QuotedString :=
  pmap (pdelimited (popt cfws) (_inner_quoted_string db) (popt cfws))
    (fun qc => QuotedString.mk (concat_qs qc))

/-- `atext` byte class from rfc5322.rs. -/
def atextB (b : Nat) : Bool :=
  (48 ≤ b && b ≤ 57) || (65 ≤ b && b ≤ 90) || (97 ≤ b && b ≤ 122) ||
    b = 33 || b = 35 || b = 36 || b = 37 || b = 38 || b = 39 || b = 42 || b = 43 ||
    b = 45 || b = 47 || b = 61 || b = 63 || b = 94 || b = 95 || b = 96 ||
    b = 123 || b = 124 || b = 125 || b = 126

/-- `dot_atom`: CFWS-padded dot-separated atom sequence. -/
def dot_atom : Parser DotAtom :=
  pmapUnwrap
    (pdelimited (popt cfws)
      (precognize (ppair (many1Class atextB) (pmany0 (ppair (ptag [46]) (many1Class atextB)))))
      (popt cfws))
    (fun bs => (fromUtf8Ascii bs).map DotAtom.mk)

/-- `atom`: CFWS-padded atext run, returned as bytes. -/
def atom : Parser (List Nat) :=
  pdelimited (popt cfws) (many1Class atextB) (popt cfws)

/-- `_padded_encoded_word`: CFWS-padded encoded word. -/
def _padded_encoded_word (db : CharsetDB) : Parser String :=
  pdelimited (popt cfws) (encoded_word db) (popt cfws)

/-- A display-name word (rfc5322.rs `Text`). -/
inductive Text where
  | literal (s : String)
  | atom (s : String)
deriving DecidableEq

/-- The text of a word. -/
def Text.str : Text → String
  | .literal s => s
  | .atom s => s

/-- `word`: an encoded word, an atom, or a quoted string. -/
def word (db : CharsetDB) : Parser Text :=
  palt (pmap (_padded_encoded_word db) Text.literal)
    (palt (pmapUnwrap atom (fun bs => (fromUtf8Ascii bs).map Text.atom))
      (pmap (quoted_string db) (fun q => Text.literal q.s)))

/-- `_concat_atom_and_qs` from rfc5322.rs, arm for arm.  Note that the
source's second match arm binds `v` from the PEEKED next word
(`(_, Some(Text::Atom(v))) => out.push_str(&v)`), so it pushes the next
word's text and discards the current word; the model mirrors this. -/
def concatAtomQsGo (out : String) : List Text → String
  | [] => out
  | cur :: rest =>
    match cur, rest.head? with
    | .atom v, some _ => concatAtomQsGo (out ++ v ++ " ") rest
    | _, some (.atom v) => concatAtomQsGo (out ++ v ++ " ") rest
    | t1, _ => concatAtomQsGo (out ++ t1.str) rest

/-- `_concat_atom_and_qs`. -/
def _concat_atom_and_qs (l : List Text) : String :=
  concatAtomQsGo "" l

/-- `display_name`: one or more words, concatenated. -/
def display_name (db : CharsetDB) : Parser String :=
  pmap (pmany1 (word db)) _concat_atom_and_qs

/-- `local_part`. -/
def local_part (db : CharsetDB) : Parser LocalPart :=
  palt (pmap dot_atom LocalPart.dotAtom) (pmap (quoted_string db) LocalPart.quoted)

/-- `dtext` byte class from rfc5322.rs. -/
def dtextB (b : Nat) : Bool :=
  (33 ≤ b && b ≤ 90) || (94 ≤ b && b ≤ 126)

/-- `domain_literal`: bracketed literal, upgraded at construction when its
text is a valid textual IP address. -/
def domain_literal : Parser AddressLiteral :=
  pmapUnwrap
    (pdelimited (ppair (popt cfws) (ptag [91]))
      (ppair (pmany0 (ppair ofws (many1Class dtextB))) ofws)
      (ppair (ptag [93]) (popt cfws)))
    (fun x =>
      let folded := x.1.foldl
        (fun acc p =>
          match acc, fromUtf8Ascii p.2 with
          | some s, some y => some (s ++ p.1 ++ y)
          | _, _ => none)
        (some "")
      match folded with
      | some s =>
        let lit := AddressLiteral.freeForm (s ++ x.2)
        some (lit.upgrade.getD lit)
      | none => none)

/-- `_domain`: a dot-atom domain. -/
def _domain : Parser Domain :=
  pmap dot_atom (fun a => Domain.mk a.s)

/-- `domain`: a domain name or an address literal. -/
def domain : Parser DomainPart :=
  palt (pmap _domain DomainPart.domain) (pmap domain_literal DomainPart.address)

/-- `addr_spec`: `local-part @ domain`. -/
def addr_spec (db : CharsetDB) : Parser SmtpMailbox :=
  pmap (pseparatedPair (local_part db) (ptag [64]) domain)
    (fun x => SmtpMailbox.mk x.1 x.2)

/-- `angle_addr`: angle-bracketed addr-spec with CFWS padding. -/
def angle_addr (db : CharsetDB) : Parser SmtpMailbox :=
  pdelimited (ppair (popt cfws) (ptag [60])) (addr_spec db) (ppair (ptag [62]) (popt cfws))

/-- A message-header mailbox: optional display name plus address
(rfc5322.rs `Mailbox`). -/
structure Mailbox where
  dname : Option String
  address : SmtpMailbox
deriving DecidableEq

/-- A message-header group (rfc5322.rs `Group`). -/
structure Group where
  dname : String
  members : List Mailbox
deriving DecidableEq

/-- A message-header address (rfc5322.rs `Address`). -/
inductive Address where
  | mailbox (m : Mailbox)
  | group (g : Group)
deriving DecidableEq

/-- `name_addr`: optional display name then angle-addr. -/
def name_addr (db : CharsetDB) : Parser Mailbox :=
  pmap (ppair (popt (display_name db)) (angle_addr db))
    (fun x => Mailbox.mk x.1 x.2)

/-- `mailbox`: name-addr or bare addr-spec. -/
def mailbox (db : CharsetDB) : Parser Mailbox :=
  palt (name_addr db) (pmap (addr_spec db) (fun a => Mailbox.mk none a))

/-- `fold_prefix0` from util.rs: a required first element parsed by
`prefix`, then folded continuations; the fold's initial accumulator
re-runs `prefix` on the original input and keeps its value. -/
def fold_prefix0 {α : Type} (p c : Parser α) : Parser (List α) := fun input =>
  match p input with
  | .ok rem _ =>
    let init : List α :=
      match p input with
      | .ok _ v => [v]
      | _ => []
    pmany0F c (rem.length + 1) init rem
  | .fail => .fail
  | .panic => .panic
  | .fuel => .fuel

/-- `mailbox_list`: comma-separated mailboxes. -/
def mailbox_list (db : CharsetDB) : Parser (List Mailbox) :=
  fold_prefix0 (mailbox db) (ppreceded (ptag [44]) (mailbox db))

/-- `group_list`: a mailbox list, or pure CFWS for an empty group. -/
def group_list (db : CharsetDB) : Parser (List Mailbox) :=
  palt (mailbox_list db) (pmap cfws (fun _ => []))

/-- `group`: display name, colon, optional member list, semicolon. -/
def group (db : CharsetDB) : Parser Group :=
  pmap
    (ppair (pterminated (display_name db) (ptag [58]))
      (pterminated (popt (group_list db)) (ppair (ptag [59]) (popt cfws))))
    (fun x => Group.mk x.1 (x.2.getD []))

/-- `address`: a mailbox or a group. -/
def address (db : CharsetDB) : Parser Address :=
  palt (pmap (mailbox db) Address.mailbox) (pmap (group db) Address.group)

/-- `address_list`: comma-separated addresses via `fold_prefix0`. -/
def address_list (db : CharsetDB) : Parser (List Address) :=
  fold_prefix0 (address db) (ppreceded (ptag [44]) (address db))

/-- `address_list_crlf`. -/
def address_list_crlf (db : CharsetDB) : Parser (List Address) :=
  pterminated (address_list db) (popt crlfTag)

/-- `address_crlf`. -/
def address_crlf (db : CharsetDB) : Parser Address :=
  pterminated (address db) (popt crlfTag)

/-- `from` (named `from_header` here because `from` is a Lean keyword). -/
def from_header (db : CharsetDB) : Parser (List Address) :=
  address_list_crlf db

/-- `sender`. -/
def sender (db : CharsetDB) : Parser Address :=
  address_crlf db

/-- `reply_to`. -/
def reply_to (db : CharsetDB) : Parser (List Address) :=
  address_list_crlf db

/-- The byte class accepted inside an unstructured word:
`alt((vchar, _8bit_char))`. -/
def uCharB (b : Nat) : Bool :=
  vcharB b || eightBitB b

/-- The character produced for an unstructured word byte. -/
def uChar (b : Nat) : Char :=
  if b < 128 then Char.ofNat b else Char.ofNat 0xFFFD

/-- The encoded-word chain inside `unstructured`: encoded words separated
by folding whitespace are joined with no separator. -/
def ewChain (db : CharsetDB) : Parser String :=
  pmap (fold_prefix0 (encoded_word db) (ppreceded fws (encoded_word db)))
    (fun ews => String.join ews)

/-- `unstructured` from rfc5322.rs: words (encoded-word chains or visible
runs with 8-bit bytes replaced) with their leading folding whitespace,
then trailing whitespace. -/
def unstructured (db : CharsetDB) : Parser String :=
  pmapUnwrap
    (ppair
      (pmany0 (palt (ppair ofws (ewChain db)) (ppair ofws (many1Chars uCharB uChar))))
      (many0Class wspB))
    (fun x =>
      (fromUtf8Ascii x.2).map
        (fun t => (x.1.foldl (fun acc w => acc ++ w.1 ++ w.2) "") ++ t))


/-! ## rfc5321.rs (absent from the sources): SMTP commands, modelled from
the spec's SMTP command/address grammar section -/

/-- Modelled from the spec: the restricted printable class for ESMTP
parameter values (visible characters excluding the equals sign). -/
def esmtpValueB (b : Nat) : Bool :=
  (33 ≤ b && b ≤ 126) && b ≠ 61

/-- Modelled from the spec: the ESMTP parameter-name class, the atom
character class minus the equals sign (which separates name from value). -/
def esmtpKeywordB (b : Nat) : Bool :=
  atextB b && b ≠ 61

/-- Modelled from the spec: one ESMTP parameter, `NAME` or `NAME=value`. -/
def esmtp_param : Parser Param :=
  pmap (ppair (many1Class esmtpKeywordB) (popt (ppreceded (ptag [61]) (many1Class esmtpValueB))))
    (fun x => Param.mk (asciiToString x.1) (x.2.map asciiToString))

/-- Modelled from the spec: the space-separated ESMTP parameter list
following the address argument. -/
def esmtp_params : Parser (List Param) :=
  pmany0 (ppreceded (ptag [32]) esmtp_param)

/-- Modelled from the spec: the legacy source route `@domain(,@domain)*:`
preceding a path's mailbox, normally empty. -/
def a_d_l : Parser (List Domain) :=
  fold_prefix0 (ppreceded (ptag [64]) _domain)
    (ppreceded (ptag [44]) (ppreceded (ptag [64]) _domain))

/-- Modelled from the spec: a bracketed `Path` wrapping a mailbox with an
optional source route, reusing the exported grammar primitives. -/
def path (db : CharsetDB) : Parser Path :=
  pdelimited (ptag [60])
    (pmap (ppair (popt (pterminated a_d_l (ptag [58]))) (addr_spec db))
      (fun x => Path.mk x.2 (x.1.getD [])))
    (ptag [62])

/-- Modelled from the spec: `ReversePath` is the literal empty bracket
pair, or a bracketed path. -/
def reverse_path (db : CharsetDB) : Parser ReversePath :=
  palt (pmap (ptag (strBytes "<>")) (fun _ => ReversePath.null))
    (pmap (path db) ReversePath.path)

/-- Modelled from the spec: `ForwardPath` is the case-insensitive
postmaster special case (optionally with a domain) or a bracketed path. -/
def forward_path (db : CharsetDB) : Parser ForwardPath :=
  palt
    (pdelimited (ptag [60])
      (pmap (ppair (ptagNoCase (strBytes "postmaster")) (popt (ppreceded (ptag [64]) _domain)))
        (fun x => ForwardPath.postMaster x.2))
      (ptag [62]))
    (pmap (path db) ForwardPath.path)

/-- Modelled from the spec: `mail_command`, the MAIL FROM argument syntax:
reverse path, ESMTP parameters, CRLF. -/
def mail_command (db : CharsetDB) : Parser (ReversePath × List Param) :=
  ppreceded (ptagNoCase (strBytes "MAIL FROM:"))
    (pterminated (ppair (reverse_path db) esmtp_params) crlfTag)

/-- Modelled from the spec: `rcpt_command`, the RCPT TO argument syntax:
forward path, ESMTP parameters, CRLF. -/
def rcpt_command (db : CharsetDB) : Parser (ForwardPath × List Param) :=
  ppreceded (ptagNoCase (strBytes "RCPT TO:"))
    (pterminated (ppair (forward_path db) esmtp_params) crlfTag)

/-! ## rfc3461.rs: DSN extension -/

/-- `xchar` byte class from rfc3461.rs. -/
def xcharB (b : Nat) : Bool :=
  (33 ≤ b && b ≤ 42) || (44 ≤ b && b ≤ 60) || (62 ≤ b && b ≤ 126)

/-- The `xtext` loop: plain xchars, or `+XY` hex escapes, decoded. -/
def xtextRun : List Nat → List Nat × List Nat
  | [] => ([], [])
  | 43 :: h1 :: h2 :: rest =>
    if hexDigitB h1 && hexDigitB h2 then
      let p := xtextRun rest
      ((hexDigitVal h1 * 16 + hexDigitVal h2) :: p.1, p.2)
    else ([], 43 :: h1 :: h2 :: rest)
  | c :: rest =>
    if xcharB c then
      let p := xtextRun rest
      (c :: p.1, p.2)
    else ([], c :: rest)

/-- `exact!(value, _printable_xtext)`: the whole input must parse as xtext
and every decoded byte must be printable (9-13 or 32-126). -/
def printableXtextExact (v : List Nat) : Option (List Nat) :=
  match xtextRun v with
  | (d, []) => if d.all (fun c => (9 ≤ c && c ≤ 13) || (32 ≤ c && c ≤ 126)) then some d else none
  | _ => none

/-- The DSN RET parameter value. -/
inductive DSNRet where
  | full
  | hdrs
deriving DecidableEq

/-- The DSN option block for the MAIL command. -/
structure DSNMailParams where
  envid : Option String
  ret : Option DSNRet
deriving DecidableEq

/-- A parameter as handed to `dsn_mail_params`: a name and an optional
value.  The Rust `&str` values are modelled as their byte sequences, so
`value.as_bytes().len()` is plain list length. -/
abbrev BParam : Type :=
  List Nat × Option (List Nat)

/-- The loop body of `dsn_mail_params`, in source order: RET and ENVID are
intercepted (with duplicate, validity and length checks), everything else
is passed through. -/
def dsnGo : List BParam → Option String → Option DSNRet → List BParam →
    Except String (DSNMailParams × List BParam)
  | [], envidVal, retVal, out => .ok (DSNMailParams.mk envidVal retVal, out)
  | (name, value) :: rest, envidVal, retVal, out =>
    if name.map lowerB = strBytes "ret" then
      match value with
      | some v =>
        if retVal.isSome then .error "Duplicate RET"
        else if v.map lowerB = strBytes "full" then dsnGo rest envidVal (some .full) out
        else if v.map lowerB = strBytes "hdrs" then dsnGo rest envidVal (some .hdrs) out
        else .error "Invalid RET"
      | none => .error "RET without value"
    else if name.map lowerB = strBytes "envid" then
      match value with
      | some v =>
        if envidVal.isSome then .error "Duplicate ENVID"
        else if 100 < v.length then .error "ENVID over 100 bytes"
        else
          match printableXtextExact v with
          | some parsed => dsnGo rest (some (asciiToString parsed)) retVal out
          | none => .error "Invalid ENVID"
      | none => .error "ENVID without value"
    else dsnGo rest envidVal retVal (out ++ [(name, value)])

/-- `dsn_mail_params` from rfc3461.rs. -/
def dsn_mail_params (input : List BParam) : Except String (DSNMailParams × List BParam) :=
  dsnGo input none none []


/-! ## Statement vocabulary -/

/-- The boundary condition after a whitespace run inside `fws`: the next
byte (if any) is not whitespace. -/
def notWspHead (rest : List Nat) : Bool :=
  match rest with
  | [] => true
  | b :: _ => !wspB b

/-- The boundary condition for an isolated whitespace run: the next bytes
are neither whitespace nor a CRLF (which would start a fold). -/
def isolatedBoundary (rest : List Nat) : Bool :=
  notWspHead rest && !([13, 10].isPrefixOf rest)

/-! ## Well-behavedness of the embedded parsers

`Good p` packages the three facts the safety claim needs about a parser:
it never reaches a modelled panic, its fuel (computed from its input) never
runs out, and on success the remainder is a suffix of the input. -/

/-- Every byte a parser consumes lies in the class `f`. -/
def Consumes {α : Type} (p : Parser α) (f : Nat → Bool) : Prop :=
  ∀ i c r v, p i = .ok r v → i = c ++ r → ∀ b ∈ c, f b = true

/-- The class of bytes consumed by the interior of a dot-atom. -/
def dotAtextB (b : Nat) : Bool :=
  atextB b || b = 46

/-- The next byte, if any, is outside the class `f`: the boundary of a
maximal class run. -/
def headNot (f : Nat → Bool) (rest : List Nat) : Prop :=
  match rest with
  | [] => True
  | b :: _ => f b = false

/-- The charset database with no recognized labels: every encoded word
falls back to ASCII-with-replacement decoding. -/
def dbEmpty : CharsetDB := fun _ => none

/-- The string spelled by a list of ASCII bytes. -/
def asciiStr (bs : List Nat) : String :=
  String.mk (bs.map Char.ofNat)

/-- A parser that can only succeed or fail, never panics or exhausts its
fuel, and returns a suffix of its input as the remainder. -/
structure Good {α : Type} (p : Parser α) : Prop where
  nopanic : ∀ i, p i ≠ .panic
  nofuel : ∀ i, p i ≠ .fuel
  suffix : ∀ i r v, p i = .ok r v → ∃ c, i = c ++ r

theorem Good.shrink {α : Type} {p : Parser α} (h : Good p) :
    ∀ i r v, p i = .ok r v → r.length ≤ i.length := by
  intro i r v hok
  obtain ⟨c, rfl⟩ := h.suffix i r v hok
  simp

/-! ### Destructor lemmas for the combinators -/

theorem pmap_ok {α β : Type} {p : Parser α} {f : α → β} {i r : List Nat} {w : β}
    (h : pmap p f i = .ok r w) : ∃ v, p i = .ok r v ∧ w = f v := by
  unfold pmap at h
  split at h
  next r2 v heq => exact ⟨v, by cases h; exact heq, by cases h; rfl⟩
  all_goals simp at h

theorem ppair_ok {α β : Type} {p : Parser α} {q : Parser β} {i r : List Nat}
    {v : α} {w : β} (h : ppair p q i = .ok r (v, w)) :
    ∃ m, p i = .ok m v ∧ q m = .ok r w := by
  unfold ppair at h
  split at h
  next m v1 heq1 =>
    split at h
    next r2 w1 heq2 =>
      refine ⟨m, ?_, ?_⟩
      · cases h; exact heq1
      · cases h; exact heq2
    all_goals simp at h
  all_goals simp at h

theorem palt_ok {α : Type} {p q : Parser α} {i r : List Nat} {v : α}
    (h : palt p q i = .ok r v) :
    p i = .ok r v ∨ (p i = .fail ∧ q i = .ok r v) := by
  unfold palt at h
  split at h
  next r2 v2 heq => cases h; exact .inl heq
  next heq => exact .inr ⟨heq, h⟩
  all_goals simp at h

theorem popt_ok {α : Type} {p : Parser α} {i r : List Nat} {v : Option α}
    (h : popt p i = .ok r v) :
    (∃ w, p i = .ok r w ∧ v = some w) ∨ (p i = .fail ∧ r = i ∧ v = none) := by
  unfold popt at h
  split at h
  next r2 w heq => exact .inl ⟨w, by cases h; exact heq, by cases h; rfl⟩
  next heq => exact .inr ⟨heq, by cases h; exact ⟨rfl, rfl⟩⟩
  all_goals simp at h

theorem ptag_ok {t i r v : List Nat} (h : ptag t i = .ok r v) :
    v = t ∧ i = t ++ r := by
  unfold ptag at h
  split at h
  next hp =>
    cases h
    obtain ⟨u, hu⟩ := List.isPrefixOf_iff_prefix.mp hp
    exact ⟨rfl, by rw [← hu]; simp⟩
  next => simp at h

theorem pmapUnwrap_ok {α β : Type} {p : Parser α} {f : α → Option β} {i r : List Nat}
    {w : β} (h : pmapUnwrap p f i = .ok r w) :
    ∃ v, p i = .ok r v ∧ f v = some w := by
  unfold pmapUnwrap at h
  split at h
  next r2 v heq =>
    split at h
    next w2 hf => exact ⟨v, by cases h; exact heq, by cases h; exact hf⟩
    next => simp at h
  all_goals simp at h

/-! ### Span lemmas -/

theorem spanClass_append (f : Nat → Bool) (i : List Nat) :
    (spanClass f i).1 ++ (spanClass f i).2 = i := by
  induction i with
  | nil => simp [spanClass]
  | cons c rest ih =>
    by_cases hc : f c
    · simp [spanClass, hc, ih]
    · simp [spanClass, hc]

theorem spanClass_val (f : Nat → Bool) (i : List Nat) :
    ∀ b ∈ (spanClass f i).1, f b = true := by
  induction i with
  | nil => simp [spanClass]
  | cons c rest ih =>
    by_cases hc : f c
    · simp only [spanClass, hc, if_pos]
      intro b hb
      rcases List.mem_cons.mp hb with h | h
      · exact h ▸ hc
      · exact ih b h
    · simp [spanClass, hc]

theorem spanClass_of_run (f : Nat → Bool) (xs rest : List Nat)
    (hxs : ∀ b ∈ xs, f b = true) (hrest : headNot f rest) :
    spanClass f (xs ++ rest) = (xs, rest) := by
  induction xs with
  | nil =>
    cases rest with
    | nil => simp [spanClass]
    | cons b t =>
      simp only [List.nil_append, spanClass]
      simp only [show f b = false from hrest]
      simp
  | cons c xs ih =>
    have hc : f c = true := hxs c (by simp)
    simp only [List.cons_append, spanClass, hc, if_pos, List.append_eq]
    rw [ih (fun b hb => hxs b (by simp [hb]))]

/-! ### Good lemmas for the combinators -/

theorem good_pmap {α β : Type} {p : Parser α} (f : α → β) (h : Good p) :
    Good (pmap p f) := by
  refine ⟨?_, ?_, ?_⟩
  · intro i
    unfold pmap
    split
    any_goals simp
    next heq => exact absurd heq (h.nopanic i)
  · intro i
    unfold pmap
    split
    any_goals simp
    next heq => exact absurd heq (h.nofuel i)
  · intro i r v hok
    obtain ⟨w, hw, -⟩ := pmap_ok hok
    exact h.suffix i r w hw

theorem good_pmapUnwrap {α β : Type} {p : Parser α} (f : α → Option β) (h : Good p)
    (hf : ∀ i r v, p i = .ok r v → (f v).isSome) : Good (pmapUnwrap p f) := by
  refine ⟨?_, ?_, ?_⟩
  · intro i
    unfold pmapUnwrap
    split
    next r v heq =>
      have hs := hf i r v heq
      split
      · simp
      next hnone => rw [hnone] at hs; simp at hs
    any_goals simp
    next heq => exact absurd heq (h.nopanic i)
  · intro i
    unfold pmapUnwrap
    split
    next r v heq => split <;> simp
    any_goals simp
    next heq => exact absurd heq (h.nofuel i)
  · intro i r v hok
    obtain ⟨w, hw, -⟩ := pmapUnwrap_ok hok
    exact h.suffix i r w hw

theorem good_palt {α : Type} {p q : Parser α} (hp : Good p) (hq : Good q) :
    Good (palt p q) := by
  refine ⟨?_, ?_, ?_⟩
  · intro i
    unfold palt
    split
    any_goals simp
    · exact hq.nopanic i
    next heq => exact absurd heq (hp.nopanic i)
  · intro i
    unfold palt
    split
    any_goals simp
    · exact hq.nofuel i
    next heq => exact absurd heq (hp.nofuel i)
  · intro i r v hok
    rcases palt_ok hok with h | ⟨-, h⟩
    · exact hp.suffix i r v h
    · exact hq.suffix i r v h

theorem good_ppair {α β : Type} {p : Parser α} {q : Parser β} (hp : Good p)
    (hq : Good q) : Good (ppair p q) := by
  refine ⟨?_, ?_, ?_⟩
  · intro i
    unfold ppair
    split
    next m v heq =>
      split
      any_goals simp
      next heq2 => exact absurd heq2 (hq.nopanic m)
    any_goals simp
    next heq => exact absurd heq (hp.nopanic i)
  · intro i
    unfold ppair
    split
    next m v heq =>
      split
      any_goals simp
      next heq2 => exact absurd heq2 (hq.nofuel m)
    any_goals simp
    next heq => exact absurd heq (hp.nofuel i)
  · intro i r v hok
    obtain ⟨v1, v2⟩ := v
    obtain ⟨m, h1, h2⟩ := ppair_ok hok
    obtain ⟨c1, rfl⟩ := hp.suffix i m v1 h1
    obtain ⟨c2, rfl⟩ := hq.suffix m r v2 h2
    exact ⟨c1 ++ c2, by simp⟩

theorem good_popt {α : Type} {p : Parser α} (hp : Good p) : Good (popt p) := by
  refine ⟨?_, ?_, ?_⟩
  · intro i
    unfold popt
    split
    any_goals simp
    next heq => exact absurd heq (hp.nopanic i)
  · intro i
    unfold popt
    split
    any_goals simp
    next heq => exact absurd heq (hp.nofuel i)
  · intro i r v hok
    rcases popt_ok hok with ⟨w, hw, -⟩ | ⟨-, rfl, -⟩
    · exact hp.suffix i r w hw
    · exact ⟨[], rfl⟩

theorem good_ptag (t : List Nat) : Good (ptag t) := by
  refine ⟨?_, ?_, ?_⟩
  · intro i
    unfold ptag
    split <;> simp
  · intro i
    unfold ptag
    split <;> simp
  · intro i r v hok
    obtain ⟨-, h⟩ := ptag_ok hok
    exact ⟨t, h⟩

theorem good_ptagNoCase (t : List Nat) : Good (ptagNoCase t) := by
  refine ⟨?_, ?_, ?_⟩
  · intro i
    unfold ptagNoCase
    split <;> simp
  · intro i
    unfold ptagNoCase
    split <;> simp
  · intro i r v hok
    unfold ptagNoCase at hok
    split at hok
    · cases hok; exact ⟨i.take t.length, by simp⟩
    · simp at hok

theorem good_pterminated {α β : Type} {p : Parser α} {q : Parser β} (hp : Good p)
    (hq : Good q) : Good (pterminated p q) :=
  good_pmap _ (good_ppair hp hq)

theorem good_ppreceded {α β : Type} {p : Parser α} {q : Parser β} (hp : Good p)
    (hq : Good q) : Good (ppreceded p q) :=
  good_pmap _ (good_ppair hp hq)

theorem good_pdelimited {α β γ : Type} {a : Parser α} {b : Parser β} {c : Parser γ}
    (ha : Good a) (hb : Good b) (hc : Good c) : Good (pdelimited a b c) :=
  good_pmap _ (good_ppair ha (good_ppair hb hc))

theorem good_pseparatedPair {α β γ : Type} {a : Parser α} {b : Parser β} {c : Parser γ}
    (ha : Good a) (hb : Good b) (hc : Good c) : Good (pseparatedPair a b c) :=
  good_pmap _ (good_ppair ha (good_ppair hb hc))

theorem good_precognize {α : Type} {p : Parser α} (hp : Good p) : Good (precognize p) := by
  refine ⟨?_, ?_, ?_⟩
  · intro i
    unfold precognize
    split
    any_goals simp
    next heq => exact absurd heq (hp.nopanic i)
  · intro i
    unfold precognize
    split
    any_goals simp
    next heq => exact absurd heq (hp.nofuel i)
  · intro i r v hok
    unfold precognize at hok
    split at hok
    next r2 w heq =>
      obtain ⟨h1, -⟩ : r2 = r ∧ i.take (i.length - r2.length) = v := by
        constructor <;> cases hok <;> rfl
      subst h1
      exact hp.suffix i r2 w heq
    all_goals simp at hok

theorem good_take1_filter (f : Nat → Bool) : Good (take1_filter f) := by
  refine ⟨?_, ?_, ?_⟩
  · intro i
    cases i with
    | nil => simp [take1_filter]
    | cons c r => by_cases hc : f c <;> simp [take1_filter, hc]
  · intro i
    cases i with
    | nil => simp [take1_filter]
    | cons c r => by_cases hc : f c <;> simp [take1_filter, hc]
  · intro i r v hok
    cases i with
    | nil => exact absurd hok (by simp [take1_filter])
    | cons c rest =>
      by_cases hc : f c <;> simp [take1_filter, hc] at hok
      exact ⟨[c], by simp [hok.1]⟩

theorem good_many0Class (f : Nat → Bool) : Good (many0Class f) := by
  refine ⟨?_, ?_, ?_⟩
  · intro i; simp [many0Class]
  · intro i; simp [many0Class]
  · intro i r v hok
    simp only [many0Class] at hok
    cases hok
    exact ⟨(spanClass f i).1, (spanClass_append f i).symm⟩

theorem good_many1Class (f : Nat → Bool) : Good (many1Class f) := by
  refine ⟨?_, ?_, ?_⟩
  · intro i
    simp only [many1Class, many0Class]
    by_cases he : (spanClass f i).1.isEmpty <;> simp [he]
  · intro i
    simp only [many1Class, many0Class]
    by_cases he : (spanClass f i).1.isEmpty <;> simp [he]
  · intro i r v hok
    simp only [many1Class, many0Class] at hok
    by_cases he : (spanClass f i).1.isEmpty <;> simp [he] at hok
    obtain ⟨hr, hv⟩ := hok
    subst hr
    exact ⟨(spanClass f i).1, (spanClass_append f i).symm⟩

theorem many1Class_ok {f : Nat → Bool} {i r v : List Nat}
    (h : many1Class f i = .ok r v) :
    v = (spanClass f i).1 ∧ r = (spanClass f i).2 ∧ v ≠ [] ∧ ∀ b ∈ v, f b = true := by
  simp only [many1Class, many0Class] at h
  by_cases he : (spanClass f i).1.isEmpty <;> simp [he] at h
  obtain ⟨hr, hv⟩ := h
  subst hr
  subst hv
  exact ⟨rfl, rfl, by simpa [List.isEmpty_iff] using he, spanClass_val f i⟩

theorem good_many1Chars (f : Nat → Bool) (g : Nat → Char) : Good (many1Chars f g) :=
  good_pmap _ (good_many1Class f)


theorem many0Class_ok {f : Nat → Bool} {i r v : List Nat}
    (h : many0Class f i = .ok r v) :
    v = (spanClass f i).1 ∧ r = (spanClass f i).2 := by
  simp only [many0Class] at h
  cases h
  exact ⟨rfl, rfl⟩

theorem fromUtf8Ascii_some {bs : List Nat} (h : ∀ b ∈ bs, b < 128) :
    fromUtf8Ascii bs = some (String.mk (bs.map Char.ofNat)) := by
  simp only [fromUtf8Ascii, List.all_eq_true]
  rw [if_pos]
  intro b hb
  simpa using h b hb

/-! ### Repetition lemmas -/

theorem pmany0F_ok_extends {α : Type} {p : Parser α} :
    ∀ (fuel : Nat) (acc : List α) i r out,
      pmany0F p fuel acc i = .ok r out → ∃ t, out = acc ++ t := by
  intro fuel
  induction fuel with
  | zero =>
    intro acc i r out h
    simp [pmany0F] at h
  | succ fuel ih =>
    intro acc i r out h
    simp only [pmany0F] at h
    split at h
    next r2 v heq =>
      split at h
      · simp at h
      · obtain ⟨t, ht⟩ := ih (acc ++ [v]) r2 r out h
        exact ⟨v :: t, by simp [ht]⟩
    next heq =>
      cases h
      exact ⟨[], by simp⟩
    all_goals simp at h

theorem pmany0F_nopanic {α : Type} {p : Parser α} (hp : ∀ i, p i ≠ .panic) :
    ∀ (fuel : Nat) (acc : List α) i, pmany0F p fuel acc i ≠ .panic := by
  intro fuel
  induction fuel with
  | zero => intro acc i; simp [pmany0F]
  | succ fuel ih =>
    intro acc i
    simp only [pmany0F]
    split
    next r v heq =>
      split
      · simp
      · exact ih _ _
    · simp
    next heq => exact absurd heq (hp i)
    · simp

theorem pmany0F_nofuel {α : Type} {p : Parser α} (hp : Good p) :
    ∀ (fuel : Nat) (acc : List α) i, i.length < fuel → pmany0F p fuel acc i ≠ .fuel := by
  intro fuel
  induction fuel with
  | zero =>
    intro acc i h
    exact absurd h (Nat.not_lt_zero _)
  | succ fuel ih =>
    intro acc i hlt
    simp only [pmany0F]
    split
    next r v heq =>
      split
      · simp
      next hne =>
        apply ih
        have hle := hp.shrink i r v heq
        omega
    · simp
    next heq => simp
    next heq => exact absurd heq (hp.nofuel i)

theorem pmany0F_suffix {α : Type} {p : Parser α} (hp : Good p) :
    ∀ (fuel : Nat) (acc : List α) i r out,
      pmany0F p fuel acc i = .ok r out → ∃ c, i = c ++ r := by
  intro fuel
  induction fuel with
  | zero =>
    intro acc i r out h
    simp [pmany0F] at h
  | succ fuel ih =>
    intro acc i r out h
    simp only [pmany0F] at h
    split at h
    next r2 v heq =>
      split at h
      · simp at h
      · obtain ⟨c2, hc2⟩ := ih (acc ++ [v]) r2 r out h
        obtain ⟨c1, hc1⟩ := hp.suffix i r2 v heq
        exact ⟨c1 ++ c2, by rw [hc1, hc2]; simp⟩
    next heq =>
      cases h
      exact ⟨[], rfl⟩
    all_goals simp at h

theorem good_pmany0 {α : Type} {p : Parser α} (hp : Good p) : Good (pmany0 p) := by
  refine ⟨?_, ?_, ?_⟩
  · intro i
    exact pmany0F_nopanic hp.nopanic _ _ i
  · intro i
    exact pmany0F_nofuel hp _ [] i (by omega)
  · intro i r v hok
    exact pmany0F_suffix hp _ [] i r v hok

theorem good_pmany1 {α : Type} {p : Parser α} (hp : Good p) : Good (pmany1 p) := by
  refine ⟨?_, ?_, ?_⟩
  · intro i
    unfold pmany1
    split
    next r v heq => exact pmany0F_nopanic hp.nopanic _ _ r
    any_goals simp
    next heq => exact absurd heq (hp.nopanic i)
  · intro i
    unfold pmany1
    split
    next r v heq => exact pmany0F_nofuel hp _ _ r (by omega)
    any_goals simp
    next heq => exact absurd heq (hp.nofuel i)
  · intro i r v hok
    unfold pmany1 at hok
    split at hok
    next r2 w heq =>
      obtain ⟨c2, hc2⟩ := pmany0F_suffix hp _ _ r2 r v hok
      obtain ⟨c1, hc1⟩ := hp.suffix i r2 w heq
      exact ⟨c1 ++ c2, by rw [hc1, hc2]; simp⟩
    all_goals simp at hok

theorem good_fold_prefix0 {α : Type} {p c : Parser α} (hp : Good p) (hc : Good c) :
    Good (fold_prefix0 p c) := by
  refine ⟨?_, ?_, ?_⟩
  · intro i
    unfold fold_prefix0
    split
    next rem v heq => exact pmany0F_nopanic hc.nopanic _ _ rem
    any_goals simp
    next heq => exact absurd heq (hp.nopanic i)
  · intro i
    unfold fold_prefix0
    split
    next rem v heq => exact pmany0F_nofuel hc _ _ rem (by omega)
    any_goals simp
    next heq => exact absurd heq (hp.nofuel i)
  · intro i r v hok
    unfold fold_prefix0 at hok
    split at hok
    next rem w heq =>
      obtain ⟨c2, hc2⟩ := pmany0F_suffix hc _ _ rem r v hok
      obtain ⟨c1, hc1⟩ := hp.suffix i rem w heq
      exact ⟨c1 ++ c2, by rw [hc1, hc2]; simp⟩
    all_goals simp at hok

theorem fold_prefix0_ok_nonempty {α : Type} {p c : Parser α} {i r : List Nat}
    {out : List α} (h : fold_prefix0 p c i = .ok r out) : out ≠ [] := by
  unfold fold_prefix0 at h
  split at h
  next rem v heq =>
    rw [heq] at h
    simp only at h
    obtain ⟨t, ht⟩ := pmany0F_ok_extends _ _ rem r out h
    simp [ht]
  all_goals simp at h


/-! ### Byte-class bounds (the guards that keep `from_utf8` total) -/

theorem wspB_lt {b : Nat} (h : wspB b = true) : b < 128 := by
  simp [wspB] at h
  rcases h with h | h <;> omega

theorem ctextB_lt {b : Nat} (h : ctextB b = true) : b < 128 := by
  simp [ctextB] at h
  rcases h with h | h | h <;> omega

theorem atextB_lt {b : Nat} (h : atextB b = true) : b < 128 := by
  simp [atextB] at h
  rcases h with h | h | h | h <;> omega

theorem dtextB_lt {b : Nat} (h : dtextB b = true) : b < 128 := by
  simp [dtextB] at h
  rcases h with h | h <;> omega

theorem fromUtf8Ascii_isSome_of_class {f : Nat → Bool} {v : List Nat}
    (hb : ∀ b, f b = true → b < 128) (hv : ∀ b ∈ v, f b = true) :
    ∃ s, fromUtf8Ascii v = some s := by
  exact ⟨_, fromUtf8Ascii_some (fun b h => hb b (hv b h))⟩

/-! ### Lexical parser lemmas -/

theorem good_vchar : Good vchar :=
  good_pmap _ (good_take1_filter _)

theorem good_wsp : Good wsp :=
  good_take1_filter _

theorem good_crlfTag : Good crlfTag :=
  good_ptag _

theorem good_quoted_pair : Good quoted_pair := by
  refine ⟨?_, ?_, ?_⟩
  · intro i
    unfold quoted_pair
    split
    next rest =>
      cases rest with
      | nil => simp
      | cons c r2 => by_cases hc : vcharB c || wspB c <;> simp [hc]
    · simp
  · intro i
    unfold quoted_pair
    split
    next rest =>
      cases rest with
      | nil => simp
      | cons c r2 => by_cases hc : vcharB c || wspB c <;> simp [hc]
    · simp
  · intro i r v hok
    unfold quoted_pair at hok
    split at hok
    next rest =>
      cases rest with
      | nil => simp at hok
      | cons c r2 =>
        by_cases hc : vcharB c || wspB c <;> simp [hc] at hok
        exact ⟨[92, c], by simp [hok.1]⟩
    · simp at hok

theorem good_fws : Good fws := by
  refine ⟨?_, ?_, ?_⟩
  · intro i
    unfold fws
    split
    next s0 r0 heq0 =>
      split
      next rest =>
        split
        next s1 r1 heq1 =>
          obtain ⟨-, -, -, hcl1⟩ := many1Class_ok heq1
          obtain ⟨hv0, -⟩ := many0Class_ok heq0
          split
          next hnone =>
            obtain ⟨s, hs⟩ := fromUtf8Ascii_isSome_of_class (fun b h => wspB_lt h)
              (fun b hb => spanClass_val wspB i b (by rw [← hv0]; exact hb))
            rw [hs] at hnone
            simp at hnone
          next a ha =>
            split
            next hnone =>
              obtain ⟨s, hs⟩ := fromUtf8Ascii_isSome_of_class (fun b h => wspB_lt h) hcl1
              rw [hs] at hnone
              simp at hnone
            next b hb => simp
        next heq1 => simp
        next heq1 => exact absurd heq1 ((good_many1Class wspB).nopanic rest)
        next heq1 => simp
      next s02 hne =>
        split
        next s1 r1 heq1 =>
          obtain ⟨-, -, -, hcl1⟩ := many1Class_ok heq1
          split
          next hnone =>
            obtain ⟨s, hs⟩ := fromUtf8Ascii_isSome_of_class (fun b h => wspB_lt h) hcl1
            rw [hs] at hnone
            simp at hnone
          next b hb => simp
        next heq1 => simp
        next heq1 => exact absurd heq1 ((good_many1Class wspB).nopanic i)
        next heq1 => simp
    next heq0 => simp
    next heq0 => exact absurd heq0 ((good_many0Class wspB).nopanic i)
    next heq0 => simp
  · intro i
    unfold fws
    split
    next s0 r0 heq0 =>
      split
      next rest =>
        split
        next s1 r1 heq1 =>
          split
          · simp
          next a ha => split <;> simp
        next heq1 => simp
        next heq1 => simp
        next heq1 => exact absurd heq1 ((good_many1Class wspB).nofuel rest)
      next s02 hne =>
        split
        next s1 r1 heq1 => split <;> simp
        next heq1 => simp
        next heq1 => simp
        next heq1 => exact absurd heq1 ((good_many1Class wspB).nofuel i)
    next heq0 => simp
    next heq0 => simp
    next heq0 => exact absurd heq0 ((good_many0Class wspB).nofuel i)
  · intro i r v hok
    unfold fws at hok
    split at hok
    next s0 r0 heq0 =>
      split at hok
      next rest =>
        obtain ⟨c0, hc0⟩ := (good_many0Class wspB).suffix i _ r0 heq0
        split at hok
        next s1 r1 heq1 =>
          obtain ⟨c1, hc1⟩ := (good_many1Class wspB).suffix rest s1 r1 heq1
          split at hok
          · simp at hok
          next a ha =>
            split at hok
            · simp at hok
            next b hb =>
              cases hok
              exact ⟨c0 ++ [13, 10] ++ c1, by rw [hc0, hc1]; simp⟩
        all_goals simp at hok
      next s02 hne =>
        split at hok
        next s1 r1 heq1 =>
          obtain ⟨c1, hc1⟩ := (good_many1Class wspB).suffix i s1 r1 heq1
          split at hok
          · simp at hok
          next b hb =>
            cases hok
            exact ⟨c1, hc1⟩
        all_goals simp at hok
    all_goals simp at hok

theorem good_ofws : Good ofws :=
  good_pmap _ (good_popt good_fws)


/-! ### The comment grammar terminates and is panic-free

One mutual induction on the fuel establishes, for `ccontent`, `comment` and
the comment body loop: no modelled panic is reachable, the remainder of a
success is a suffix of the input, and the fuel bounds computed at the entry
points are sufficient (each recursive descent consumes at least one byte). -/

theorem commentAux : ∀ fuel : Nat,
    (∀ i, ccontentF fuel i ≠ .panic ∧
      (∀ r v, ccontentF fuel i = .ok r v → ∃ c, i = c ++ r) ∧
      (3 * i.length + 2 ≤ fuel → ccontentF fuel i ≠ .fuel)) ∧
    (∀ i, commentF fuel i ≠ .panic ∧
      (∀ r v, commentF fuel i = .ok r v → ∃ c, i = c ++ r) ∧
      (3 * i.length + 1 ≤ fuel → commentF fuel i ≠ .fuel)) ∧
    (∀ acc i, commentLoopF fuel acc i ≠ .panic ∧
      (∀ r v, commentLoopF fuel acc i = .ok r v → ∃ c, i = c ++ r) ∧
      (3 * i.length + 3 ≤ fuel → commentLoopF fuel acc i ≠ .fuel)) := by
  intro fuel
  induction fuel with
  | zero =>
    refine ⟨fun i => ⟨?_, ?_, ?_⟩, fun i => ⟨?_, ?_, ?_⟩, fun acc i => ⟨?_, ?_, ?_⟩⟩ <;>
      simp [ccontentF, commentF, commentLoopF]
  | succ fuel ih =>
    obtain ⟨ihc, ihm, ihl⟩ := ih
    refine ⟨fun i => ⟨?_, ?_, ?_⟩, fun i => ⟨?_, ?_, ?_⟩, fun acc i => ⟨?_, ?_, ?_⟩⟩
    · -- ccontent, no panic
      simp only [ccontentF]
      split
      next r bs heq =>
        obtain ⟨-, -, -, hcl⟩ := many1Class_ok heq
        split
        next => simp
        next hnone =>
          obtain ⟨s, hs⟩ := fromUtf8Ascii_isSome_of_class (fun b h => ctextB_lt h) hcl
          rw [hs] at hnone
          simp at hnone
      next heq => exact absurd heq ((good_many1Class ctextB).nopanic i)
      next heq => simp
      next heq =>
        split
        next => simp
        next heq2 => exact absurd heq2 (good_quoted_pair.nopanic i)
        next heq2 => simp
        next heq2 =>
          split
          next => simp
          next => simp
          next heq3 => exact absurd heq3 (ihm i).1
          next => simp
    · -- ccontent, suffix
      intro r v hok
      simp only [ccontentF] at hok
      split at hok
      next r2 bs heq =>
        split at hok
        next s hsome =>
          cases hok
          exact (good_many1Class ctextB).suffix _ _ _ heq
        next hnone => simp at hok
      next heq => simp at hok
      next heq => simp at hok
      next heq =>
        split at hok
        next r2 ch heq2 =>
          cases hok
          exact good_quoted_pair.suffix _ _ _ heq2
        next heq2 => simp at hok
        next heq2 => simp at hok
        next heq2 =>
          split at hok
          next r2 cs heq3 =>
            cases hok
            exact (ihm i).2.1 _ _ heq3
          all_goals simp at hok
    · -- ccontent, fuel bound
      intro hb
      simp only [ccontentF]
      split
      next r bs heq => split <;> simp
      next heq => simp
      next heq => exact absurd heq ((good_many1Class ctextB).nofuel i)
      next heq =>
        split
        next => simp
        next heq2 => simp
        next heq2 => exact absurd heq2 (good_quoted_pair.nofuel i)
        next heq2 =>
          split
          next => simp
          next => simp
          next => simp
          next heq3 => exact absurd heq3 ((ihm i).2.2 (by omega))
    · -- comment, no panic
      simp only [commentF]
      split
      next r tg heq =>
        split
        next r2 acc heq2 =>
          split
          next r3 ws heq3 =>
            split
            next => simp
            next => simp
            next heq4 => exact absurd heq4 ((good_ptag [41]).nopanic r3)
            next => simp
          next heq3 => simp
          next heq3 => exact absurd heq3 (good_ofws.nopanic r2)
          next heq3 => simp
        next heq2 => simp
        next heq2 => exact absurd heq2 (ihl [] r).1
        next heq2 => simp
      next heq => simp
      next heq => exact absurd heq ((good_ptag [40]).nopanic i)
      next heq => simp
    · -- comment, suffix
      intro r v hok
      simp only [commentF] at hok
      split at hok
      next r1 tg heq =>
        obtain ⟨-, hi⟩ := ptag_ok heq
        split at hok
        next r2 acc heq2 =>
          obtain ⟨c2, hc2⟩ := (ihl [] r1).2.1 _ _ heq2
          split at hok
          next r3 ws heq3 =>
            obtain ⟨c3, hc3⟩ := good_ofws.suffix _ _ _ heq3
            split at hok
            next r4 tg2 heq4 =>
              obtain ⟨-, hr3⟩ := ptag_ok heq4
              cases hok
              exact ⟨[40] ++ c2 ++ c3 ++ [41], by rw [hi, hc2, hc3, hr3]; simp⟩
            all_goals simp at hok
          all_goals simp at hok
        all_goals simp at hok
      all_goals simp at hok
    · -- comment, fuel bound
      intro hb
      simp only [commentF]
      split
      next r tg heq =>
        obtain ⟨-, hi⟩ := ptag_ok heq
        have hlen : i.length = r.length + 1 := by rw [hi]; simp
        split
        next r2 acc heq2 =>
          split
          next r3 ws heq3 =>
            split
            next => simp
            next => simp
            next => simp
            next heq4 => exact absurd heq4 ((good_ptag [41]).nofuel r3)
          next heq3 => simp
          next heq3 => simp
          next heq3 => exact absurd heq3 (good_ofws.nofuel r2)
        next heq2 => simp
        next heq2 => simp
        next heq2 => exact absurd heq2 ((ihl [] r).2.2 (by omega))
      next heq => simp
      next heq => simp
      next heq => exact absurd heq ((good_ptag [40]).nofuel i)
    · -- loop, no panic
      simp only [commentLoopF]
      split
      next mid ws heq =>
        split
        next heq2 => simp
        next rem cc heq2 =>
          split
          · simp
          · exact (ihl _ rem).1
        next heq2 => exact absurd heq2 (ihc mid).1
        next heq2 => simp
      next heq => simp
      next heq => exact absurd heq (good_ofws.nopanic i)
      next heq => simp
    · -- loop, suffix
      intro r v hok
      simp only [commentLoopF] at hok
      split at hok
      next mid ws heq =>
        obtain ⟨c1, hc1⟩ := good_ofws.suffix _ _ _ heq
        split at hok
        next heq2 =>
          cases hok
          exact ⟨[], rfl⟩
        next rem cc heq2 =>
          obtain ⟨c2, hc2⟩ := (ihc mid).2.1 _ _ heq2
          split at hok
          · simp at hok
          · obtain ⟨c3, hc3⟩ := (ihl _ rem).2.1 _ _ hok
            exact ⟨c1 ++ c2 ++ c3, by rw [hc1, hc2, hc3]; simp⟩
        next heq2 => simp at hok
        next heq2 => simp at hok
      next heq =>
        cases hok
        exact ⟨[], rfl⟩
      next heq => simp at hok
      next heq => simp at hok
    · -- loop, fuel bound
      intro hb
      simp only [commentLoopF]
      split
      next mid ws heq =>
        have hmid : mid.length ≤ i.length := good_ofws.shrink _ _ _ heq
        split
        next heq2 => simp
        next rem cc heq2 =>
          have hrem : rem.length ≤ mid.length := by
            obtain ⟨c2, hc2⟩ := (ihc mid).2.1 _ _ heq2
            rw [hc2]
            simp
          split
          next => simp
          next hne => exact (ihl _ rem).2.2 (by omega)
        next heq2 => simp
        next heq2 => exact absurd heq2 ((ihc mid).2.2 (by omega))
      next heq => simp
      next heq => exact absurd heq (good_ofws.nopanic i)
      next heq => exact absurd heq (good_ofws.nofuel i)


theorem good_comment : Good comment := by
  refine ⟨?_, ?_, ?_⟩
  · intro i
    exact ((commentAux (3 * i.length + 3)).2.1 i).1
  · intro i
    exact ((commentAux (3 * i.length + 3)).2.1 i).2.2 (by omega)
  · intro i r v h
    exact ((commentAux (3 * i.length + 3)).2.1 i).2.1 r v h

theorem good_cfws : Good cfws :=
  good_palt
    (good_precognize (good_ppair (good_pmany1 (good_ppair good_ofws good_comment)) good_ofws))
    (good_precognize good_fws)

/-! ### Consumed-byte classes (for the `recognize`-site unwraps) -/

theorem consumes_many1Class {f g : Nat → Bool} (h : ∀ b, f b = true → g b = true) :
    Consumes (many1Class f) g := by
  intro i c r v hok hi
  obtain ⟨hv, hr, -, -⟩ := many1Class_ok hok
  have hspan : (spanClass f i).1 ++ r = c ++ r := by
    conv_lhs => rw [hr, spanClass_append]
    rw [← hi]
  have hc : (spanClass f i).1 = c := List.append_cancel_right hspan
  intro b hb
  exact h b (spanClass_val f i b (hc ▸ hb))

theorem consumes_ptag {t : List Nat} {g : Nat → Bool} (h : ∀ b ∈ t, g b = true) :
    Consumes (ptag t) g := by
  intro i c r v hok hi
  obtain ⟨-, hit⟩ := ptag_ok hok
  have hc : t = c := List.append_cancel_right (hit.symm.trans hi)
  exact fun b hb => h b (hc ▸ hb)

theorem consumes_pmap {α β : Type} {p : Parser α} {f : α → β} {g : Nat → Bool}
    (h : Consumes p g) : Consumes (pmap p f) g := by
  intro i c r v hok hi
  obtain ⟨w, hw, -⟩ := pmap_ok hok
  exact h i c r w hw hi

theorem consumes_ppair {α β : Type} {p : Parser α} {q : Parser β} {g : Nat → Bool}
    (hgp : Good p) (hgq : Good q) (hp : Consumes p g) (hq : Consumes q g) :
    Consumes (ppair p q) g := by
  intro i c r v hok hi
  obtain ⟨m, h1, h2⟩ := ppair_ok (show ppair p q i = .ok r (v.1, v.2) by simpa using hok)
  obtain ⟨c1, hc1⟩ := hgp.suffix i m v.1 h1
  obtain ⟨c2, hc2⟩ := hgq.suffix m r v.2 h2
  have hc : c1 ++ c2 = c := by
    apply List.append_cancel_right
    rw [List.append_assoc, ← hc2, ← hc1, hi]
  intro b hb
  rw [← hc] at hb
  rcases List.mem_append.mp hb with hb | hb
  · exact hp i c1 m v.1 h1 hc1 b hb
  · exact hq m c2 r v.2 h2 hc2 b hb

theorem consumes_popt {α : Type} {p : Parser α} {g : Nat → Bool} (hp : Consumes p g) :
    Consumes (popt p) g := by
  intro i c r v hok hi
  rcases popt_ok hok with ⟨w, hw, -⟩ | ⟨-, rfl, -⟩
  · exact hp i c r w hw hi
  · have : c = [] := by
      have := congrArg List.length hi
      simp at this
      simpa [List.length_eq_zero] using this.symm
    simp [this]

theorem consumes_pmany0F {α : Type} {p : Parser α} {g : Nat → Bool} (hgp : Good p)
    (hp : Consumes p g) :
    ∀ (fuel : Nat) (acc : List α) i c r out,
      pmany0F p fuel acc i = .ok r out → i = c ++ r → ∀ b ∈ c, g b = true := by
  intro fuel
  induction fuel with
  | zero =>
    intro acc i c r out h
    simp [pmany0F] at h
  | succ fuel ih =>
    intro acc i c r out h hi
    simp only [pmany0F] at h
    split at h
    next r2 v heq =>
      split at h
      · simp at h
      · obtain ⟨c1, hc1⟩ := hgp.suffix i r2 v heq
        obtain ⟨c2, hc2⟩ := pmany0F_suffix hgp fuel (acc ++ [v]) r2 r out h
        have hc : c1 ++ c2 = c := by
          apply List.append_cancel_right
          rw [List.append_assoc, ← hc2, ← hc1, hi]
        intro b hb
        rw [← hc] at hb
        rcases List.mem_append.mp hb with hb | hb
        · exact hp i c1 r2 v heq hc1 b hb
        · exact ih (acc ++ [v]) r2 c2 r out h hc2 b hb
    next heq =>
      cases h
      have : c = [] := by
        have := congrArg List.length hi
        simp at this
        simpa [List.length_eq_zero] using this.symm
      simp [this]
    all_goals simp at h

theorem consumes_pmany0 {α : Type} {p : Parser α} {g : Nat → Bool} (hgp : Good p)
    (hp : Consumes p g) : Consumes (pmany0 p) g := by
  intro i c r v hok hi
  exact consumes_pmany0F hgp hp _ [] i c r v hok hi

/-- The recognized prefix of a parser that consumes only bytes of class
`f` consists of bytes of class `f`. -/
theorem precognize_val {α : Type} {p : Parser α} {f : Nat → Bool} (hp : Good p)
    (hc : Consumes p f) :
    ∀ i r v, precognize p i = .ok r v → ∀ b ∈ v, f b = true := by
  intro i r v hok
  unfold precognize at hok
  split at hok
  next r2 w heq =>
    obtain ⟨c, hcc⟩ := hp.suffix i r2 w heq
    obtain ⟨h1, h2⟩ : r2 = r ∧ i.take (i.length - r2.length) = v := by
      constructor <;> cases hok <;> rfl
    have hv : v = c := by
      rw [← h2, hcc]
      simp
    exact fun b hb => hc i c r2 w heq hcc b (hv ▸ hb)
  all_goals simp at hok

theorem pdelimited_ok {α β γ : Type} {a : Parser α} {b : Parser β} {c : Parser γ}
    {i r : List Nat} {v : β} (h : pdelimited a b c i = .ok r v) :
    ∃ i1 m w1 w2, a i = .ok i1 w1 ∧ b i1 = .ok m v ∧ c m = .ok r w2 := by
  unfold pdelimited at h
  obtain ⟨w, hw, hv⟩ := pmap_ok h
  obtain ⟨i1, h1, h2⟩ := ppair_ok (show ppair a (ppair b c) i = .ok r (w.1, w.2) by
    simpa using hw)
  obtain ⟨m, h3, h4⟩ := ppair_ok (show ppair b c i1 = .ok r (w.2.1, w.2.2) by
    simpa using h2)
  exact ⟨i1, m, w.1, w.2.2, h1, hv ▸ h3, h4⟩

theorem pmany0F_vals {α : Type} {p : Parser α} {P : α → Prop}
    (hp : ∀ i r v, p i = .ok r v → P v) :
    ∀ (fuel : Nat) (acc : List α) i r out,
      (∀ x ∈ acc, P x) → pmany0F p fuel acc i = .ok r out → ∀ x ∈ out, P x := by
  intro fuel
  induction fuel with
  | zero =>
    intro acc i r out hacc h
    simp [pmany0F] at h
  | succ fuel ih =>
    intro acc i r out hacc h
    simp only [pmany0F] at h
    split at h
    next r2 v heq =>
      split at h
      · simp at h
      · refine ih (acc ++ [v]) r2 r out ?_ h
        intro x hx
        rcases List.mem_append.mp hx with hx | hx
        · exact hacc x hx
        · simp at hx
          exact hx ▸ hp i r2 v heq
    next heq =>
      cases h
      exact hacc
    all_goals simp at h


/-! ### Good lemmas for the quoted-string/atom/address layer -/

theorem good_encoded_word (db : CharsetDB) : Good (encoded_word db) :=
  good_pmap _ (good_ppreceded (good_ptag _)
    (good_ppair (good_many1Class _)
      (good_ppreceded (good_popt (good_ppreceded (good_ptag _) (good_many1Class _)))
        (good_ppreceded (good_ptag _)
          (good_ppair (good_many1Class _)
            (good_ppreceded (good_ptag _)
              (good_pterminated (good_many1Class _) (good_ptag _))))))))

theorem good_qcontent (db : CharsetDB) : Good (qcontent db) :=
  good_palt (good_pmap _ (good_encoded_word db))
    (good_palt (good_pmap _ (good_many1Chars _ _)) (good_pmap _ good_quoted_pair))

theorem good_inner_quoted_string (db : CharsetDB) : Good (_inner_quoted_string db) :=
  good_pmap _ (good_pdelimited (good_ptag _)
    (good_ppair (good_pmany0 (good_ppair (good_popt good_fws) (good_qcontent db)))
      (good_popt good_fws))
    (good_ptag _))

theorem good_quoted_string (db : CharsetDB) : Good (quoted_string db) :=
  good_pmap _ (good_pdelimited (good_popt good_cfws) (good_inner_quoted_string db)
    (good_popt good_cfws))

theorem good_dotAtomInner :
    Good (precognize (ppair (many1Class atextB) (pmany0 (ppair (ptag [46]) (many1Class atextB))))) :=
  good_precognize (good_ppair (good_many1Class _)
    (good_pmany0 (good_ppair (good_ptag _) (good_many1Class _))))

theorem consumes_dotAtomInner :
    Consumes (ppair (many1Class atextB) (pmany0 (ppair (ptag [46]) (many1Class atextB))))
      dotAtextB := by
  refine consumes_ppair (good_many1Class _)
    (good_pmany0 (good_ppair (good_ptag _) (good_many1Class _)))
    (consumes_many1Class ?_)
    (consumes_pmany0 (good_ppair (good_ptag _) (good_many1Class _))
      (consumes_ppair (good_ptag _) (good_many1Class _)
        (consumes_ptag ?_) (consumes_many1Class ?_)))
  · intro b h
    simp [dotAtextB, h]
  · intro b hb
    simp at hb
    simp [dotAtextB, hb]
  · intro b h
    simp [dotAtextB, h]

theorem dotAtextB_lt {b : Nat} (h : dotAtextB b = true) : b < 128 := by
  simp [dotAtextB] at h
  rcases h with h | h
  · exact atextB_lt h
  · omega

theorem good_dot_atom : Good dot_atom := by
  refine good_pmapUnwrap _ (good_pdelimited (good_popt good_cfws) good_dotAtomInner
    (good_popt good_cfws)) ?_
  intro i r v hok
  obtain ⟨i1, m, w1, w2, -, hb, -⟩ := pdelimited_ok hok
  have hcl := precognize_val
    (good_ppair (good_many1Class _) (good_pmany0 (good_ppair (good_ptag _) (good_many1Class _))))
    consumes_dotAtomInner i1 m v hb
  obtain ⟨sst, hss⟩ := fromUtf8Ascii_isSome_of_class (fun b h => dotAtextB_lt h) hcl
  simp [hss]

theorem good_atom : Good atom :=
  good_pdelimited (good_popt good_cfws) (good_many1Class _) (good_popt good_cfws)

theorem atom_val {i r v : List Nat} (h : atom i = .ok r v) : ∀ b ∈ v, atextB b = true := by
  obtain ⟨i1, m, w1, w2, -, hb, -⟩ := pdelimited_ok h
  obtain ⟨-, -, -, hcl⟩ := many1Class_ok hb
  exact hcl

theorem good_padded_encoded_word (db : CharsetDB) : Good (_padded_encoded_word db) :=
  good_pdelimited (good_popt good_cfws) (good_encoded_word db) (good_popt good_cfws)

theorem good_word (db : CharsetDB) : Good (word db) := by
  refine good_palt (good_pmap _ (good_padded_encoded_word db))
    (good_palt (good_pmapUnwrap _ good_atom ?_) (good_pmap _ (good_quoted_string db)))
  intro i r v hok
  obtain ⟨sst, hss⟩ := fromUtf8Ascii_isSome_of_class (fun b h => atextB_lt h) (atom_val hok)
  simp [hss]

theorem good_display_name (db : CharsetDB) : Good (display_name db) :=
  good_pmap _ (good_pmany1 (good_word db))

theorem good_local_part (db : CharsetDB) : Good (local_part db) :=
  good_palt (good_pmap _ good_dot_atom) (good_pmap _ (good_quoted_string db))

theorem dlFold_isSome :
    ∀ (l : List (String × List Nat)),
      (∀ x ∈ l, ∀ b ∈ x.2, dtextB b = true) →
      ∀ acc : String,
        (l.foldl
          (fun acc p =>
            match acc, fromUtf8Ascii p.2 with
            | some s, some y => some (s ++ p.1 ++ y)
            | _, _ => none)
          (some acc)).isSome := by
  intro l
  induction l with
  | nil =>
    intro h acc
    simp
  | cons x t ih =>
    intro h acc
    obtain ⟨sx, hsx⟩ := fromUtf8Ascii_isSome_of_class (fun b hb => dtextB_lt hb)
      (h x (by simp))
    simp only [List.foldl_cons, hsx]
    exact ih (fun y hy => h y (by simp [hy])) _

theorem good_domain_literal : Good domain_literal := by
  refine good_pmapUnwrap _
    (good_pdelimited (good_ppair (good_popt good_cfws) (good_ptag _))
      (good_ppair (good_pmany0 (good_ppair good_ofws (good_many1Class _))) good_ofws)
      (good_ppair (good_ptag _) (good_popt good_cfws))) ?_
  intro i r v hok
  obtain ⟨i1, m, w1, w2, -, hb, -⟩ := pdelimited_ok hok
  obtain ⟨v1, v2⟩ := v
  obtain ⟨m1, h1, -⟩ := ppair_ok hb
  have hvals : ∀ x ∈ v1, (fun x : String × List Nat => ∀ b ∈ x.2, dtextB b = true) x := by
    refine pmany0F_vals ?_ _ [] i1 m1 v1 (by simp) h1
    intro j rr vv hj
    obtain ⟨vv1, vv2⟩ := vv
    obtain ⟨mm, -, h3⟩ := ppair_ok hj
    obtain ⟨-, -, -, hcl⟩ := many1Class_ok h3
    exact hcl
  have := dlFold_isSome v1 hvals ""
  simp only
  split
  next s hs => simp
  next hnone => rw [hnone] at this; simp at this

theorem good__domain : Good _domain :=
  good_pmap _ good_dot_atom

theorem good_domain : Good domain :=
  good_palt (good_pmap _ good__domain) (good_pmap _ good_domain_literal)

theorem good_addr_spec (db : CharsetDB) : Good (addr_spec db) :=
  good_pmap _ (good_pseparatedPair (good_local_part db) (good_ptag _) good_domain)

theorem good_angle_addr (db : CharsetDB) : Good (angle_addr db) :=
  good_pdelimited (good_ppair (good_popt good_cfws) (good_ptag _)) (good_addr_spec db)
    (good_ppair (good_ptag _) (good_popt good_cfws))

theorem good_name_addr (db : CharsetDB) : Good (name_addr db) :=
  good_pmap _ (good_ppair (good_popt (good_display_name db)) (good_angle_addr db))

theorem good_mailbox (db : CharsetDB) : Good (mailbox db) :=
  good_palt (good_name_addr db) (good_pmap _ (good_addr_spec db))

theorem good_mailbox_list (db : CharsetDB) : Good (mailbox_list db) :=
  good_fold_prefix0 (good_mailbox db) (good_ppreceded (good_ptag _) (good_mailbox db))

theorem good_group_list (db : CharsetDB) : Good (group_list db) :=
  good_palt (good_mailbox_list db) (good_pmap _ good_cfws)

theorem good_group (db : CharsetDB) : Good (group db) :=
  good_pmap _ (good_ppair (good_pterminated (good_display_name db) (good_ptag _))
    (good_pterminated (good_popt (good_group_list db))
      (good_ppair (good_ptag _) (good_popt good_cfws))))

theorem good_address (db : CharsetDB) : Good (address db) :=
  good_palt (good_pmap _ (good_mailbox db)) (good_pmap _ (good_group db))

theorem good_address_list (db : CharsetDB) : Good (address_list db) :=
  good_fold_prefix0 (good_address db) (good_ppreceded (good_ptag _) (good_address db))

theorem good_address_list_crlf (db : CharsetDB) : Good (address_list_crlf db) :=
  good_pterminated (good_address_list db) (good_popt good_crlfTag)

theorem good_address_crlf (db : CharsetDB) : Good (address_crlf db) :=
  good_pterminated (good_address db) (good_popt good_crlfTag)

theorem good_from_header (db : CharsetDB) : Good (from_header db) :=
  good_address_list_crlf db

theorem good_sender (db : CharsetDB) : Good (sender db) :=
  good_address_crlf db

theorem good_reply_to (db : CharsetDB) : Good (reply_to db) :=
  good_address_list_crlf db

theorem good_ewChain (db : CharsetDB) : Good (ewChain db) :=
  good_pmap _ (good_fold_prefix0 (good_encoded_word db)
    (good_ppreceded good_fws (good_encoded_word db)))

theorem good_unstructured (db : CharsetDB) : Good (unstructured db) := by
  refine good_pmapUnwrap _
    (good_ppair
      (good_pmany0 (good_palt (good_ppair good_ofws (good_ewChain db))
        (good_ppair good_ofws (good_many1Chars _ _))))
      (good_many0Class _)) ?_
  intro i r v hok
  obtain ⟨v1, v2⟩ := v
  obtain ⟨m, -, h2⟩ := ppair_ok hok
  obtain ⟨hv2, -⟩ := many0Class_ok h2
  obtain ⟨sst, hss⟩ := fromUtf8Ascii_isSome_of_class (fun b h => wspB_lt h)
    (fun b hb => spanClass_val wspB m b (hv2 ▸ hb))
  simp [hss]


/-! ## Claim theorems -/

/-- C1: For every charset database and every input byte sequence —
including empty input, pure non-ASCII binary, and arbitrarily deeply
nested comments — each parsing entrypoint of the message-header grammar
(`from`, `sender`, `reply_to`, `unstructured`) returns either a success
(remainder, value) or a no-match failure: the modelled panics (every
internal `str::from_utf8(..).unwrap()`) are unreachable because of the
ASCII character classes that guard them, and the recursion fuel computed
from the input never runs out, so the parsers are total. -/
theorem c1_entrypoints_total :
    ∀ (db : CharsetDB) (input : List Nat),
      ((∃ rem val, from_header db input = .ok rem val) ∨ from_header db input = .fail) ∧
      ((∃ rem val, sender db input = .ok rem val) ∨ sender db input = .fail) ∧
      ((∃ rem val, reply_to db input = .ok rem val) ∨ reply_to db input = .fail) ∧
      ((∃ rem val, unstructured db input = .ok rem val) ∨ unstructured db input = .fail) := by
  intro db input
  have h : ∀ (α : Type) (p : Parser α), Good p →
      (∃ rem val, p input = .ok rem val) ∨ p input = .fail := by
    intro α p hp
    cases hres : p input
    · exact .inl ⟨_, _, rfl⟩
    · exact .inr rfl
    · exact absurd hres (hp.nopanic input)
    · exact absurd hres (hp.nofuel input)
  exact ⟨h _ _ (good_from_header db), h _ _ (good_sender db), h _ _ (good_reply_to db),
    h _ _ (good_unstructured db)⟩

/-- C2: When the address-list parser (or, in general, any instance of the
`fold_prefix0` prefix-then-continuation combinator) succeeds, the returned
list is non-empty: the fold's initial accumulator re-runs the prefix
parser on the same input, which by purity succeeds again and seeds the
accumulator with the first element. -/
theorem c2_address_list_nonempty :
    (∀ (db : CharsetDB) (input rem : List Nat) (out : List Address),
      address_list db input = .ok rem out → out ≠ []) ∧
    (∀ (α : Type) (p c : Parser α) (input rem : List Nat) (out : List α),
      fold_prefix0 p c input = .ok rem out → out ≠ []) := by
  constructor
  · intro db input rem out h
    exact fold_prefix0_ok_nonempty h
  · intro α p c input rem out h
    exact fold_prefix0_ok_nonempty h


/-! ### Helper lemmas for symbolic parses -/

theorem strMk_append (l1 l2 : List Char) :
    String.mk l1 ++ String.mk l2 = String.mk (l1 ++ l2) :=
  rfl

theorem ptag_append (t r : List Nat) : ptag t (t ++ r) = .ok r t := by
  unfold ptag
  rw [if_pos (List.isPrefixOf_iff_prefix.mpr ⟨r, rfl⟩)]
  simp

theorem many1Class_run {f : Nat → Bool} (xs rest : List Nat)
    (hxs : ∀ b ∈ xs, f b = true) (hne : xs ≠ [])
    (hrest : headNot f rest) :
    many1Class f (xs ++ rest) = .ok rest xs := by
  simp only [many1Class, many0Class, spanClass_of_run f xs rest hxs hrest]
  simp [hne]

theorem many0Class_run {f : Nat → Bool} (xs rest : List Nat)
    (hxs : ∀ b ∈ xs, f b = true) (hrest : headNot f rest) :
    many0Class f (xs ++ rest) = .ok rest xs := by
  simp only [many0Class, spanClass_of_run f xs rest hxs hrest]


/-- A boundary head that is not whitespace. -/
theorem notWspHead_match {rest : List Nat} (h : notWspHead rest = true) :
    headNot wspB rest := by
  cases rest with
  | nil => trivial
  | cons x t => simpa [headNot, notWspHead] using h

/-- `fws` on an isolated whitespace run keeps the run verbatim. -/
theorem fws_isolated (b rest : List Nat) (hb : ∀ x ∈ b, wspB x = true)
    (hbne : b ≠ []) (hrest : isolatedBoundary rest = true) :
    fws (b ++ rest) = .ok rest (asciiStr b) := by
  simp only [isolatedBoundary, Bool.and_eq_true, Bool.not_eq_true'] at hrest
  obtain ⟨hrest1, hrest2⟩ := hrest
  have hrest0 := notWspHead_match hrest1
  have h0 : many0Class wspB (b ++ rest) = .ok rest b := many0Class_run b rest hb hrest0
  have h1 : many1Class wspB (b ++ rest) = .ok rest b := many1Class_run b rest hb hbne hrest0
  have h2 : fromUtf8Ascii b = some (asciiStr b) :=
    fromUtf8Ascii_some (fun x hx => wspB_lt (hb x hx))
  unfold fws
  simp only [h0]
  split
  next => simp [List.isPrefixOf] at hrest2
  next => simp only [h1, h2]

/-- `fws` on a whitespace run folded around a CRLF drops the CRLF and
keeps both whitespace runs verbatim. -/
theorem fws_folded (a b rest : List Nat) (ha : ∀ x ∈ a, wspB x = true)
    (hb : ∀ x ∈ b, wspB x = true) (hbne : b ≠ [])
    (hrest : notWspHead rest = true) :
    fws (a ++ [13, 10] ++ b ++ rest) = .ok rest (asciiStr (a ++ b)) := by
  have hrest0 := notWspHead_match hrest
  have hsplit : a ++ [13, 10] ++ b ++ rest = a ++ (13 :: 10 :: (b ++ rest)) := by simp
  have h0 : many0Class wspB (a ++ (13 :: 10 :: (b ++ rest))) =
      .ok (13 :: 10 :: (b ++ rest)) a :=
    many0Class_run a (13 :: 10 :: (b ++ rest)) ha (by simp [headNot, wspB])
  have h1 : many1Class wspB (b ++ rest) = .ok rest b := many1Class_run b rest hb hbne hrest0
  have h2a : fromUtf8Ascii a = some (asciiStr a) :=
    fromUtf8Ascii_some (fun x hx => wspB_lt (ha x hx))
  have h2b : fromUtf8Ascii b = some (asciiStr b) :=
    fromUtf8Ascii_some (fun x hx => wspB_lt (hb x hx))
  unfold fws
  rw [hsplit]
  simp only [h0, h1, h2a, h2b]
  simp only [asciiStr, strMk_append, List.map_append]

/-- `fws` fails when the first byte is neither whitespace nor CR. -/
theorem fws_fail_head (c : Nat) (t : List Nat) (hc : wspB c = false)
    (hc13 : c ≠ 13) : fws (c :: t) = .fail := by
  have h0 : many0Class wspB (c :: t) = .ok (c :: t) [] := by
    simp [many0Class, spanClass, hc]
  have h1 : many1Class wspB (c :: t) = .fail := by
    simp [many1Class, many0Class, spanClass, hc]
  unfold fws
  simp only [h0]
  split
  next r2 hr2 =>
    exact absurd (by cases hr2; rfl : c = 13) hc13
  next =>
    simp only [h1]


/-! ### Forward-evaluation lemmas for the combinators -/

theorem pmap_eq {α β : Type} {p : Parser α} {i r : List Nat} {v : α} (f : α → β)
    (h : p i = .ok r v) : pmap p f i = .ok r (f v) := by
  unfold pmap
  simp only [h]

theorem pmap_fail {α β : Type} {p : Parser α} {i : List Nat} (f : α → β)
    (h : p i = .fail) : pmap p f i = .fail := by
  unfold pmap
  simp only [h]

theorem ppair_eq {α β : Type} {p : Parser α} {q : Parser β} {i m r : List Nat}
    {v : α} {w : β} (hp : p i = .ok m v) (hq : q m = .ok r w) :
    ppair p q i = .ok r (v, w) := by
  unfold ppair
  simp only [hp, hq]

theorem ppair_fail1 {α β : Type} {p : Parser α} {q : Parser β} {i : List Nat}
    (hp : p i = .fail) : ppair p q i = .fail := by
  unfold ppair
  simp only [hp]

theorem ppair_fail2 {α β : Type} {p : Parser α} {q : Parser β} {i m : List Nat}
    {v : α} (hp : p i = .ok m v) (hq : q m = .fail) : ppair p q i = .fail := by
  unfold ppair
  simp only [hp, hq]

theorem ppreceded_eq {α β : Type} {p : Parser α} {q : Parser β} {i m r : List Nat}
    {v : α} {w : β} (hp : p i = .ok m v) (hq : q m = .ok r w) :
    ppreceded p q i = .ok r w :=
  pmap_eq _ (ppair_eq hp hq)

theorem ppreceded_fail1 {α β : Type} {p : Parser α} {q : Parser β} {i : List Nat}
    (hp : p i = .fail) : ppreceded p q i = .fail :=
  pmap_fail _ (ppair_fail1 hp)

theorem ppreceded_fail2 {α β : Type} {p : Parser α} {q : Parser β} {i m : List Nat}
    {v : α} (hp : p i = .ok m v) (hq : q m = .fail) : ppreceded p q i = .fail :=
  pmap_fail _ (ppair_fail2 hp hq)

theorem pterminated_eq {α β : Type} {p : Parser α} {q : Parser β} {i m r : List Nat}
    {v : α} {w : β} (hp : p i = .ok m v) (hq : q m = .ok r w) :
    pterminated p q i = .ok r v :=
  pmap_eq _ (ppair_eq hp hq)

theorem pdelimited_eq {α β γ : Type} {a : Parser α} {b : Parser β} {c : Parser γ}
    {i m1 m2 r : List Nat} {v1 : α} {v2 : β} {v3 : γ} (ha : a i = .ok m1 v1)
    (hb : b m1 = .ok m2 v2) (hc : c m2 = .ok r v3) :
    pdelimited a b c i = .ok r v2 :=
  pmap_eq _ (ppair_eq ha (ppair_eq hb hc))

theorem pseparatedPair_eq {α β γ : Type} {a : Parser α} {b : Parser β} {c : Parser γ}
    {i m1 m2 r : List Nat} {v1 : α} {v2 : β} {v3 : γ} (ha : a i = .ok m1 v1)
    (hb : b m1 = .ok m2 v2) (hc : c m2 = .ok r v3) :
    pseparatedPair a b c i = .ok r (v1, v3) :=
  pmap_eq _ (ppair_eq ha (ppair_eq hb hc))

theorem popt_eq_some {α : Type} {p : Parser α} {i r : List Nat} {v : α}
    (h : p i = .ok r v) : popt p i = .ok r (some v) := by
  unfold popt
  simp only [h]

theorem popt_eq_none {α : Type} {p : Parser α} {i : List Nat} (h : p i = .fail) :
    popt p i = .ok i none := by
  unfold popt
  simp only [h]

theorem palt_eq1 {α : Type} {p q : Parser α} {i r : List Nat} {v : α}
    (h : p i = .ok r v) : palt p q i = .ok r v := by
  unfold palt
  simp only [h]

theorem palt_eq2 {α : Type} {p q : Parser α} {i : List Nat} (h : p i = .fail) :
    palt p q i = q i := by
  unfold palt
  simp only [h]

theorem ptag_fail_head {t : List Nat} {c : Nat} {i : List Nat} {d : Nat}
    (hne : d ≠ c) : ptag (d :: t) (c :: i) = .fail := by
  unfold ptag
  rw [if_neg]
  intro hcon
  obtain ⟨u, hu⟩ := List.isPrefixOf_iff_prefix.mp hcon
  exact hne (by cases hu; rfl)

theorem pmany0F_step {α : Type} {p : Parser α} {fuel : Nat} {acc : List α}
    {i r : List Nat} {v : α} (h : p i = .ok r v) (hlt : r.length ≠ i.length) :
    pmany0F p (fuel + 1) acc i = pmany0F p fuel (acc ++ [v]) r := by
  simp only [pmany0F, h]
  rw [if_neg hlt]

theorem pmany0F_end {α : Type} {p : Parser α} {fuel : Nat} {acc : List α}
    {i : List Nat} (h : p i = .fail) :
    pmany0F p (fuel + 1) acc i = .ok i acc := by
  simp only [pmany0F, h]

theorem pmany0F_fuel_irrel {α : Type} {p : Parser α} (hp : Good p) :
    ∀ (f1 f2 : Nat) (acc : List α) (i : List Nat), i.length < f1 → i.length < f2 →
      pmany0F p f1 acc i = pmany0F p f2 acc i := by
  intro f1
  induction f1 with
  | zero =>
    intro f2 acc i h1
    exact absurd h1 (Nat.not_lt_zero _)
  | succ f1 ih =>
    intro f2 acc i h1 h2
    cases f2 with
    | zero => exact absurd h2 (Nat.not_lt_zero _)
    | succ f2 =>
      simp only [pmany0F]
      cases hpi : p i with
      | ok r v =>
        by_cases hg : r.length = i.length
        · simp [hg]
        · have hr : r.length < i.length :=
            lt_of_le_of_ne (hp.shrink i r v hpi) hg
          simp only [if_neg hg]
          exact ih f2 (acc ++ [v]) r (by omega) (by omega)
      | fail => rfl
      | panic => rfl
      | fuel => rfl


/-- C3 counterexample: `fws` accepts a CRLF followed by two blanks, and
the decoded value is the two blanks verbatim, not the single blank the
claim asserts. -/
theorem c3_counterexample :
    fws [13, 10, 32, 32] = .ok [] "  " ∧ fws [13, 10, 32, 32] ≠ .ok [] " " := by
  exact ⟨rfl, by decide⟩

/-- C3 (amended): for a folding-whitespace run accepted by `fws`, the line
terminator contributes nothing to the decoded value (it is deleted) and
the whitespace runs around it are preserved verbatim; an isolated run with
no interposed line break is also preserved verbatim.  In particular a
terminator followed by exactly one blank contributes exactly that blank. -/
theorem c3_fws_amended :
    ∀ a b rest : List Nat,
      (∀ x ∈ a, wspB x = true) → (∀ x ∈ b, wspB x = true) → b ≠ [] →
      notWspHead rest = true →
      fws (a ++ [13, 10] ++ b ++ rest) = .ok rest (asciiStr (a ++ b)) ∧
      (isolatedBoundary rest = true → fws (b ++ rest) = .ok rest (asciiStr b)) ∧
      fws ([13, 10] ++ [32] ++ rest) = .ok rest " " := by
  intro a b rest ha hb hbne hrest
  refine ⟨fws_folded a b rest ha hb hbne hrest, ?_, ?_⟩
  · intro hiso
    exact fws_isolated b rest hb hbne hiso
  · have h := fws_folded [] [32] rest (by simp) (by simp [wspB]) (by simp) hrest
    simpa using h

/-- C2 witness: the non-emptiness conjunct applied at a concrete
single-mailbox list. -/
theorem c2_witness :
    address_list dbEmpty (strBytes "a@b.c") =
      .ok [] [Address.mailbox (Mailbox.mk none (SmtpMailbox.mk
        (.dotAtom (DotAtom.mk "a")) (.domain (Domain.mk "b.c"))))] ∧
    [Address.mailbox (Mailbox.mk none (SmtpMailbox.mk
      (.dotAtom (DotAtom.mk "a")) (.domain (Domain.mk "b.c"))))] ≠ ([] : List Address) :=
  ⟨by rfl, c2_address_list_nonempty.1 dbEmpty (strBytes "a@b.c") [] _ (by rfl)⟩

/-- C3 witness: the amended theorem applied at a concrete fold. -/
theorem c3_witness :
    fws ([32] ++ [13, 10] ++ [9, 32] ++ [65]) = .ok [65] (asciiStr ([32] ++ [9, 32])) :=
  (c3_fws_amended [32] [9, 32] [65] (by decide) (by decide) (by decide) (by decide)).1

/-- The shape evaluation for `encoded_word`: a well-formed token shape
always succeeds, consuming exactly the encoded word. -/
theorem encoded_word_shape (db : CharsetDB) (cs enc txt rest : List Nat)
    (hcs : ∀ b ∈ cs, tokenB b = true) (hcsne : cs ≠ [])
    (henc : ∀ b ∈ enc, tokenB b = true) (hencne : enc ≠ [])
    (htxt : ∀ b ∈ txt, etextB b = true) (htxtne : txt ≠ []) :
    encoded_word db
        (strBytes "=?" ++ cs ++ [63] ++ enc ++ [63] ++ txt ++ strBytes "?=" ++ rest) =
      .ok rest (decode_charset db (asciiToString cs) ((decode_text enc txt).getD txt)) := by
  have hassoc :
      strBytes "=?" ++ cs ++ [63] ++ enc ++ [63] ++ txt ++ strBytes "?=" ++ rest =
        strBytes "=?" ++ (cs ++ (63 :: (enc ++ (63 :: (txt ++ (63 :: 61 :: rest)))))) := by
    simp [strBytes]
  have h1 : ptag (strBytes "=?")
      (strBytes "=?" ++ (cs ++ (63 :: (enc ++ (63 :: (txt ++ (63 :: 61 :: rest))))))) =
      .ok (cs ++ (63 :: (enc ++ (63 :: (txt ++ (63 :: 61 :: rest)))))) (strBytes "=?") :=
    ptag_append _ _
  have h2 : many1Class tokenB (cs ++ (63 :: (enc ++ (63 :: (txt ++ (63 :: 61 :: rest)))))) =
      .ok (63 :: (enc ++ (63 :: (txt ++ (63 :: 61 :: rest))))) cs :=
    many1Class_run _ _ hcs hcsne rfl
  have h3 : ptag [42] (63 :: (enc ++ (63 :: (txt ++ (63 :: 61 :: rest))))) = .fail :=
    ptag_fail_head (by omega)
  have h4 : popt (ppreceded (ptag [42]) (many1Class tokenB))
      (63 :: (enc ++ (63 :: (txt ++ (63 :: 61 :: rest))))) =
      .ok (63 :: (enc ++ (63 :: (txt ++ (63 :: 61 :: rest))))) none :=
    popt_eq_none (ppreceded_fail1 h3)
  have h5 : ptag [63] (63 :: (enc ++ (63 :: (txt ++ (63 :: 61 :: rest))))) =
      .ok (enc ++ (63 :: (txt ++ (63 :: 61 :: rest)))) [63] :=
    ptag_append [63] _
  have h6 : many1Class tokenB (enc ++ (63 :: (txt ++ (63 :: 61 :: rest)))) =
      .ok (63 :: (txt ++ (63 :: 61 :: rest))) enc :=
    many1Class_run _ _ henc hencne rfl
  have h7 : ptag [63] (63 :: (txt ++ (63 :: 61 :: rest))) =
      .ok (txt ++ (63 :: 61 :: rest)) [63] :=
    ptag_append [63] _
  have h8 : many1Class etextB (txt ++ (63 :: 61 :: rest)) =
      .ok (63 :: 61 :: rest) txt :=
    many1Class_run _ _ htxt htxtne rfl
  have h9 : ptag (strBytes "?=") (63 :: 61 :: rest) = .ok rest (strBytes "?=") :=
    ptag_append (strBytes "?=") rest
  unfold encoded_word
  rw [hassoc]
  exact pmap_eq _ (ppreceded_eq h1 (ppair_eq h2 (ppreceded_eq h4 (ppreceded_eq h5
    (ppair_eq h6 (ppreceded_eq h7 (pterminated_eq h8 h9)))))))

/-- C6: every byte sequence matching the encoded-word token shape parses
successfully, and decoding is best effort: a transfer-encoding token other
than `q`/`b` decodes to nothing, in which case the raw encoded-text bytes
are used verbatim; an unrecognized charset label falls back to plain ASCII
decoding with one replacement character per invalid byte.  The encoded
word itself never fails on shape-valid input, so a malformed payload never
fails the enclosing parse. -/
theorem c6_encoded_word_best_effort (db : CharsetDB) (cs enc txt rest : List Nat)
    (hcs : ∀ b ∈ cs, tokenB b = true) (hcsne : cs ≠ [])
    (henc : ∀ b ∈ enc, tokenB b = true) (hencne : enc ≠ [])
    (htxt : ∀ b ∈ txt, etextB b = true) (htxtne : txt ≠ []) :
    encoded_word db
        (strBytes "=?" ++ cs ++ [63] ++ enc ++ [63] ++ txt ++ strBytes "?=" ++ rest) =
      .ok rest (decode_charset db (asciiToString cs) ((decode_text enc txt).getD txt)) ∧
    (enc.map lowerB ≠ strBytes "q" → enc.map lowerB ≠ strBytes "b" →
      decode_text enc txt = none ∧
      (decode_text enc txt).getD txt = txt) ∧
    (db (asciiToString cs) = none →
      decode_charset db (asciiToString cs) ((decode_text enc txt).getD txt) =
        asciiToString ((decode_text enc txt).getD txt)) := by
  refine ⟨encoded_word_shape db cs enc txt rest hcs hcsne henc hencne htxt htxtne, ?_, ?_⟩
  · intro hq hb
    have : decode_text enc txt = none := by
      unfold decode_text
      rw [if_neg (by simpa [strBytes] using hq), if_neg (by simpa [strBytes] using hb)]
    exact ⟨this, by simp [this]⟩
  · intro hdb
    unfold decode_charset
    simp only [hdb]

/-- C6 witness: a concrete malformed encoded word (unknown transfer
encoding `zz`, unknown charset) degrades to its raw text. -/
theorem c6_witness :
    encoded_word dbEmpty
        (strBytes "=?" ++ strBytes "x-unknown" ++ [63] ++ strBytes "zz" ++ [63] ++
          strBytes "a#b" ++ strBytes "?=" ++ []) = .ok [] "a#b" := by
  have h := (c6_encoded_word_best_effort dbEmpty (strBytes "x-unknown") (strBytes "zz")
    (strBytes "a#b") [] (by decide) (by decide) (by decide) (by decide) (by decide)
    (by decide)).1
  rw [h]
  rfl


/-! ### Failure of CFWS at non-whitespace, non-comment positions -/

theorem ofws_of_fws_fail {i : List Nat} (h : fws i = .fail) : ofws i = .ok i "" := by
  unfold ofws
  exact pmap_eq _ (popt_eq_none h)

theorem pmany1_fail {α : Type} {p : Parser α} {i : List Nat} (h : p i = .fail) :
    pmany1 p i = .fail := by
  unfold pmany1
  simp only [h]

theorem precognize_fail {α : Type} {p : Parser α} {i : List Nat} (h : p i = .fail) :
    precognize p i = .fail := by
  unfold precognize
  simp only [h]

theorem comment_head_fail {i : List Nat} (h : ptag [40] i = .fail) :
    comment i = .fail := by
  unfold comment
  have heq : 3 * i.length + 3 = (3 * i.length + 2) + 1 := rfl
  rw [heq]
  simp only [commentF, h]

theorem cfws_fail_head (c : Nat) (t : List Nat) (hcw : wspB c = false)
    (hc13 : c ≠ 13) (hc40 : c ≠ 40) : cfws (c :: t) = .fail := by
  have hfws : fws (c :: t) = .fail := fws_fail_head c t hcw hc13
  have hcom : comment (c :: t) = .fail :=
    comment_head_fail (ptag_fail_head (by omega))
  have hitem : ppair ofws comment (c :: t) = .fail :=
    ppair_fail2 (ofws_of_fws_fail hfws) hcom
  unfold cfws
  rw [palt_eq2 (precognize_fail (ppair_fail1 (pmany1_fail hitem)))]
  exact precognize_fail hfws

theorem headNot_append_wsp {f : Nat → Bool} (ws rest : List Nat) (hne : ws ≠ [])
    (hw : ∀ x ∈ ws, wspB x = true) (hf : ∀ b, wspB b = true → f b = false) :
    headNot f (ws ++ rest) := by
  cases ws with
  | nil => exact absurd rfl hne
  | cons w t => exact hf w (hw w (by simp))

theorem qtextB_false_of_wsp : ∀ b, wspB b = true → qtextB b = false := by
  intro b hb
  simp only [wspB, Bool.or_eq_true, decide_eq_true_eq] at hb
  rcases hb with h | h <;> subst h <;> decide

/-- C4 counterexample: folding whitespace between two literal fragments of
a quoted string is preserved verbatim (here as two blanks), not collapsed
to a single space as the claim asserts. -/
theorem c4_counterexample :
    quoted_string dbEmpty (strBytes "\"a  b\"") = .ok [] (QuotedString.mk "a  b") ∧
    quoted_string dbEmpty (strBytes "\"a  b\"") ≠ .ok [] (QuotedString.mk "a b") := by
  exact ⟨rfl, by decide⟩


theorem good_qsItem : Good (ppair (popt fws) (qcontent dbEmpty)) :=
  good_ppair (good_popt good_fws) (good_qcontent dbEmpty)

/-- C4 (amended): folding whitespace between two interior fragments of a
quoted string is preserved in the decoded content verbatim (with any line
terminator deleted), not collapsed to one space — except between two
encoded-word fragments, where it is dropped entirely and the decoded
encoded words are joined with no separator. -/
theorem c4_quoted_string_amended :
    ∀ ws : List Nat, (∀ x ∈ ws, wspB x = true) → ws ≠ [] →
      quoted_string dbEmpty ([34, 97] ++ ws ++ [98, 34]) =
        .ok [] (QuotedString.mk ("a" ++ asciiStr ws ++ "b")) ∧
      quoted_string dbEmpty
          ([34] ++ strBytes "=?x?q?a?=" ++ ws ++ strBytes "=?x?q?b?=" ++ [34]) =
        .ok [] (QuotedString.mk "ab") := by
  intro ws hw hne
  constructor
  · have hshape : [34, 97] ++ ws ++ [98, 34] = 34 :: (97 :: (ws ++ [98, 34])) := by simp
    have hfws1 : fws (97 :: (ws ++ [98, 34])) = .fail :=
      fws_fail_head _ _ (by decide) (by decide)
    have hew1 : encoded_word dbEmpty (97 :: (ws ++ [98, 34])) = .fail := by
      unfold encoded_word
      refine pmap_fail _ (ppreceded_fail1 ?_)
      rw [show strBytes "=?" = 61 :: [63] from rfl]
      exact ptag_fail_head (by omega)
    have hlit1 : many1Class qtextB ([97] ++ (ws ++ [98, 34])) = .ok (ws ++ [98, 34]) [97] :=
      many1Class_run _ _ (by decide) (by decide)
        (headNot_append_wsp ws _ hne hw qtextB_false_of_wsp)
    have hqc1 : qcontent dbEmpty (97 :: (ws ++ [98, 34])) =
        .ok (ws ++ [98, 34]) (.literal "a") := by
      unfold qcontent
      rw [palt_eq2 (pmap_fail _ hew1)]
      refine palt_eq1 ?_
      unfold many1Chars
      exact pmap_eq _ (pmap_eq _ hlit1)
    have hitem1 : ppair (popt fws) (qcontent dbEmpty) (97 :: (ws ++ [98, 34])) =
        .ok (ws ++ [98, 34]) (none, .literal "a") :=
      ppair_eq (popt_eq_none hfws1) hqc1
    have hfws2 : fws (ws ++ [98, 34]) = .ok [98, 34] (asciiStr ws) :=
      fws_isolated ws _ hw hne (by decide)
    have hqc2 : qcontent dbEmpty [98, 34] = .ok [34] (.literal "b") := by rfl
    have hitem2 : ppair (popt fws) (qcontent dbEmpty) (ws ++ [98, 34]) =
        .ok [34] (some (asciiStr ws), .literal "b") :=
      ppair_eq (popt_eq_some hfws2) hqc2
    have hitem3 : ppair (popt fws) (qcontent dbEmpty) [34] = .fail := by rfl
    have hlen2 : (ws ++ [98, 34]).length = ws.length + 2 := by simp
    have hloop : pmany0 (ppair (popt fws) (qcontent dbEmpty)) (97 :: (ws ++ [98, 34])) =
        .ok [34] [(none, .literal "a"), (some (asciiStr ws), .literal "b")] := by
      unfold pmany0
      rw [(by simp : (97 :: (ws ++ [98, 34])).length = (ws ++ [98, 34]).length + 1),
        pmany0F_step hitem1
          (by simp only [List.length_append, List.length_cons, List.length_nil]; omega)]
      have hf1 : (ws ++ [98, 34]).length + 1 = ws.length + 1 + 1 + 1 := by
        have := hlen2
        omega
      rw [hf1,
        pmany0F_step hitem2
          (by intro hcon
              simp only [List.length_append, List.length_cons, List.length_nil] at hcon
              omega),
        pmany0F_end hitem3]
      simp
    have hb2 : ppair (pmany0 (ppair (popt fws) (qcontent dbEmpty))) (popt fws)
        (97 :: (ws ++ [98, 34])) =
        .ok [34] ([(none, .literal "a"), (some (asciiStr ws), .literal "b")], none) :=
      ppair_eq hloop (popt_eq_none (fws_fail_head 34 [] (by decide) (by decide)))
    have hinner : _inner_quoted_string dbEmpty (34 :: (97 :: (ws ++ [98, 34]))) =
        .ok [] [.literal "a", .literal (asciiStr ws), .literal "b"] := by
      unfold _inner_quoted_string
      exact (pmap_eq _ (pdelimited_eq (ptag_append [34] (97 :: (ws ++ [98, 34]))) hb2
        (ptag_append [34] []))).trans (by rfl)
    have hc1 : cfws (34 :: (97 :: (ws ++ [98, 34]))) = .fail :=
      cfws_fail_head _ _ (by decide) (by decide) (by decide)
    unfold quoted_string
    rw [hshape]
    exact (pmap_eq _ (pdelimited_eq (popt_eq_none hc1) hinner
      (popt_eq_none (by rfl : cfws [] = .fail)))).trans (by rfl)
  · have hA : strBytes "=?x?q?a?=" = [61, 63, 120, 63, 113, 63, 97, 63, 61] := rfl
    have hB : strBytes "=?x?q?b?=" = [61, 63, 120, 63, 113, 63, 98, 63, 61] := rfl
    have hshape : [34] ++ strBytes "=?x?q?a?=" ++ ws ++ strBytes "=?x?q?b?=" ++ [34] =
        34 :: (strBytes "=?x?q?a?=" ++ (ws ++ (strBytes "=?x?q?b?=" ++ [34]))) := by
      simp
    have hEWa : encoded_word dbEmpty
        (strBytes "=?x?q?a?=" ++ (ws ++ (strBytes "=?x?q?b?=" ++ [34]))) =
        .ok (ws ++ (strBytes "=?x?q?b?=" ++ [34])) "a" := by
      have h := encoded_word_shape dbEmpty [120] [113] [97]
        (ws ++ (strBytes "=?x?q?b?=" ++ [34])) (by decide) (by decide) (by decide)
        (by decide) (by decide) (by decide)
      have heq : strBytes "=?" ++ [120] ++ [63] ++ [113] ++ [63] ++ [97] ++ strBytes "?=" ++
          (ws ++ (strBytes "=?x?q?b?=" ++ [34])) =
          strBytes "=?x?q?a?=" ++ (ws ++ (strBytes "=?x?q?b?=" ++ [34])) := by
        simp [strBytes]
      rw [heq] at h
      exact h.trans (by rfl)
    have hfws1 : fws (strBytes "=?x?q?a?=" ++ (ws ++ (strBytes "=?x?q?b?=" ++ [34]))) =
        .fail := by
      rw [hA]
      exact fws_fail_head _ _ (by decide) (by decide)
    have hqc1 : qcontent dbEmpty
        (strBytes "=?x?q?a?=" ++ (ws ++ (strBytes "=?x?q?b?=" ++ [34]))) =
        .ok (ws ++ (strBytes "=?x?q?b?=" ++ [34])) (.encodedWord "a") := by
      unfold qcontent
      exact palt_eq1 (pmap_eq _ hEWa)
    have hitem1 : ppair (popt fws) (qcontent dbEmpty)
        (strBytes "=?x?q?a?=" ++ (ws ++ (strBytes "=?x?q?b?=" ++ [34]))) =
        .ok (ws ++ (strBytes "=?x?q?b?=" ++ [34])) (none, .encodedWord "a") :=
      ppair_eq (popt_eq_none hfws1) hqc1
    have hfws2 : fws (ws ++ (strBytes "=?x?q?b?=" ++ [34])) =
        .ok (strBytes "=?x?q?b?=" ++ [34]) (asciiStr ws) :=
      fws_isolated ws _ hw hne (by rw [hB]; decide)
    have hqc2 : qcontent dbEmpty (strBytes "=?x?q?b?=" ++ [34]) =
        .ok [34] (.encodedWord "b") := by rfl
    have hitem2 : ppair (popt fws) (qcontent dbEmpty)
        (ws ++ (strBytes "=?x?q?b?=" ++ [34])) =
        .ok [34] (some (asciiStr ws), .encodedWord "b") :=
      ppair_eq (popt_eq_some hfws2) hqc2
    have hitem3 : ppair (popt fws) (qcontent dbEmpty) [34] = .fail := by rfl
    have hloop : pmany0 (ppair (popt fws) (qcontent dbEmpty))
        (strBytes "=?x?q?a?=" ++ (ws ++ (strBytes "=?x?q?b?=" ++ [34]))) =
        .ok [34] [(none, .encodedWord "a"), (some (asciiStr ws), .encodedWord "b")] := by
      unfold pmany0
      have hLa : (strBytes "=?x?q?a?=" ++ (ws ++ (strBytes "=?x?q?b?=" ++ [34]))).length =
          (ws ++ (strBytes "=?x?q?b?=" ++ [34])).length + 9 := by
        rw [hA]
        simp
      have hLb : (ws ++ (strBytes "=?x?q?b?=" ++ [34])).length = ws.length + 10 := by
        rw [hB]
        simp
      have hg1 : (strBytes "=?x?q?a?=" ++ (ws ++ (strBytes "=?x?q?b?=" ++ [34]))).length + 1 =
          (ws ++ (strBytes "=?x?q?b?=" ++ [34])).length + 8 + 1 + 1 := by
        have := hLa
        omega
      rw [hg1, pmany0F_step hitem1 (by have := hLa; omega)]
      rw [pmany0F_step hitem2
          (by intro hcon
              rw [hLb] at hcon
              simp only [List.length_cons, List.length_nil] at hcon
              omega)]
      have hg2 : (ws ++ (strBytes "=?x?q?b?=" ++ [34])).length + 8 =
          (ws ++ (strBytes "=?x?q?b?=" ++ [34])).length + 7 + 1 := by omega
      rw [hg2, pmany0F_end hitem3]
      simp
    have hb2 : ppair (pmany0 (ppair (popt fws) (qcontent dbEmpty))) (popt fws)
        (strBytes "=?x?q?a?=" ++ (ws ++ (strBytes "=?x?q?b?=" ++ [34]))) =
        .ok [34] ([(none, .encodedWord "a"), (some (asciiStr ws), .encodedWord "b")], none) :=
      ppair_eq hloop (popt_eq_none (fws_fail_head 34 [] (by decide) (by decide)))
    have hinner : _inner_quoted_string dbEmpty
        (34 :: (strBytes "=?x?q?a?=" ++ (ws ++ (strBytes "=?x?q?b?=" ++ [34])))) =
        .ok [] [.encodedWord "a", .encodedWord "b"] := by
      unfold _inner_quoted_string
      exact (pmap_eq _ (pdelimited_eq
        (ptag_append [34] (strBytes "=?x?q?a?=" ++ (ws ++ (strBytes "=?x?q?b?=" ++ [34]))))
        hb2 (ptag_append [34] []))).trans (by rfl)
    have hc1 : cfws (34 :: (strBytes "=?x?q?a?=" ++ (ws ++ (strBytes "=?x?q?b?=" ++ [34])))) =
        .fail :=
      cfws_fail_head _ _ (by decide) (by decide) (by decide)
    unfold quoted_string
    rw [hshape]
    exact (pmap_eq _ (pdelimited_eq (popt_eq_none hc1) hinner
      (popt_eq_none (by rfl : cfws [] = .fail)))).trans (by rfl)

/-- C4 witness: the amended theorem applied at a two-blank separator. -/
theorem c4_witness :
    quoted_string dbEmpty ([34, 97] ++ [32, 32] ++ [98, 34]) =
      .ok [] (QuotedString.mk ("a" ++ asciiStr [32, 32] ++ "b")) :=
  (c4_quoted_string_amended [32, 32] (by decide) (by decide)).1

/-- C5: display-name word concatenation.  The all-atom example holds:
parsing " atom  atom   atom    <ignored@example>" yields the display name
"atom atom atom" with single-space joins.  But the stated rule for mixed
sequences does not hold of the code: `_concat_atom_and_qs`'s second match
arm binds the text of the PEEKED next atom and pushes it in place of the
current word, so a quoted-string word followed by an atom contributes the
atom's text twice ("atom atom") instead of keeping both texts
("Q atom"). -/
theorem c5_display_name_concat :
    from_header dbEmpty (strBytes " atom  atom   atom    <ignored@example>") =
      .ok [] [Address.mailbox (Mailbox.mk (some "atom atom atom")
        (SmtpMailbox.mk (.dotAtom (DotAtom.mk "ignored"))
          (.domain (Domain.mk "example"))))] ∧
    _concat_atom_and_qs [Text.literal "Q", Text.atom "atom"] = "atom atom" ∧
    _concat_atom_and_qs [Text.literal "Q", Text.atom "atom"] ≠ "Q atom" :=
  ⟨rfl, rfl, by decide⟩

/-- C7: `unstructured` is not policy-parameterized: the code hardcodes the
legacy treatment of raw 8-bit bytes (each byte ≥ 128 in a non-encoded-word
run becomes one U+FFFD replacement character), so the internationalized
behaviour claimed for raw UTF-8 does not exist in the code: the UTF-8
bytes C3 A9 of "é" decode to two replacement characters. -/
theorem c7_unstructured_legacy_only :
    unstructured dbEmpty [195, 169] =
      .ok [] (String.mk [Char.ofNat 0xFFFD, Char.ofNat 0xFFFD]) ∧
    String.mk [Char.ofNat 0xFFFD, Char.ofNat 0xFFFD] ≠ "é" :=
  ⟨rfl, by decide⟩

/-- C8: every domain literal accepted by `domain_literal` is upgraded at
construction: a `freeForm` result is only produced when the literal's text
does not parse as a textual IP address; and `rcpt_command` on
"RCPT TO:<bob@[127.0.0.1]>\r\n" yields the upgraded IP literal 127.0.0.1,
never a free-form literal. -/
theorem c8_domain_literal_upgrade :
    (∀ (input rem : List Nat) (s : String),
      domain_literal input = .ok rem (.freeForm s) → ipParse s = none) ∧
    rcpt_command dbEmpty (strBytes "RCPT TO:<bob@[127.0.0.1]>\r\n") =
      .ok [] (.path (Path.mk (SmtpMailbox.mk (.dotAtom (DotAtom.mk "bob"))
        (.address (.ip (.v4 127 0 0 1)))) []), []) := by
  constructor
  · intro input rem s h
    unfold domain_literal at h
    obtain ⟨v, -, hf⟩ := pmapUnwrap_ok h
    dsimp only at hf
    split at hf
    next s0 hfold =>
      simp only [Option.some.injEq, AddressLiteral.upgrade] at hf
      cases hip : ipParse (s0 ++ v.2) with
      | some a =>
        rw [hip] at hf
        simp at hf
      | none =>
        rw [hip] at hf
        simp only [Option.map_none', Option.getD_none,
          AddressLiteral.freeForm.injEq] at hf
        rw [← hf]
        exact hip
    next => exact absurd hf (by simp)
  · rfl

/-- C8 witness: the free-form conjunct applied at the literal "[abc]",
whose text is not a textual IP address. -/
theorem c8_witness :
    domain_literal (strBytes "[abc]") = .ok [] (.freeForm "abc") ∧
    ipParse "abc" = none :=
  ⟨by rfl, c8_domain_literal_upgrade.1 (strBytes "[abc]") [] "abc" (by rfl)⟩

/-- C9: `mail_command` on "MAIL FROM:<>\r\n" yields the null reverse path
with no parameters, and on
"MAIL FROM:<bob@example.com> RET=FULL ENVID=abc123\r\n" yields the path
wrapping bob@example.com with exactly the parameters RET=FULL and
ENVID=abc123 in that order. -/
theorem c9_mail_command_examples :
    mail_command dbEmpty (strBytes "MAIL FROM:<>\r\n") = .ok [] (.null, []) ∧
    mail_command dbEmpty
        (strBytes "MAIL FROM:<bob@example.com> RET=FULL ENVID=abc123\r\n") =
      .ok [] (.path (Path.mk (SmtpMailbox.mk (.dotAtom (DotAtom.mk "bob"))
        (.domain (Domain.mk "example.com"))) []),
        [Param.mk "RET" (some "FULL"), Param.mk "ENVID" (some "abc123")]) :=
  ⟨rfl, rfl⟩

theorem dsnGo_long_envid_error :
    ∀ (ps : List BParam) (envid : Option String) (ret : Option DSNRet)
      (out : List BParam) (name v : List Nat),
      (name, some v) ∈ ps → name.map lowerB = strBytes "envid" →
      100 < v.length → ∃ e, dsnGo ps envid ret out = .error e := by
  intro ps
  induction ps with
  | nil =>
    intro envid ret out name v hmem hname hlen
    exact absurd hmem (List.not_mem_nil _)
  | cons head rest ih =>
    intro envid ret out name v hmem hname hlen
    obtain ⟨name0, value0⟩ := head
    have hrest : (name, some v) = (name0, value0) ∨ (name, some v) ∈ rest :=
      List.mem_cons.mp hmem
    simp only [dsnGo]
    split
    next hr =>
      have hmem2 : (name, some v) ∈ rest := by
        rcases hrest with heq | hmem2
        · injection heq with h1 h2
          rw [h1, hr] at hname
          exact absurd hname (by decide)
        · exact hmem2
      split
      next v0 heqv =>
        split
        · exact ⟨_, rfl⟩
        · split
          · exact ih _ _ _ _ _ hmem2 hname hlen
          · split
            · exact ih _ _ _ _ _ hmem2 hname hlen
            · exact ⟨_, rfl⟩
      next => exact ⟨_, rfl⟩
    next hr =>
      split
      next he =>
        split
        next v0 heqv =>
          split
          · exact ⟨_, rfl⟩
          · split
            · exact ⟨_, rfl⟩
            · next hlt =>
              have hmem2 : (name, some v) ∈ rest := by
                rcases hrest with heq | hmem2
                · injection heq with h1 h2
                  injection h2 with h3
                  rw [h3] at hlen
                  exact absurd hlen hlt
                · exact hmem2
              split
              · exact ih _ _ _ _ _ hmem2 hname hlen
              · exact ⟨_, rfl⟩
        next => exact ⟨_, rfl⟩
      next he =>
        have hmem2 : (name, some v) ∈ rest := by
          rcases hrest with heq | hmem2
          · injection heq with h1 h2
            rw [h1] at hname
            exact absurd hname he
          · exact hmem2
        exact ih _ _ _ _ _ hmem2 hname hlen

theorem dsnGo_envid_cons (v : List Nat) (rest : List BParam)
    (ret : Option DSNRet) (out : List BParam) :
    dsnGo ((strBytes "ENVID", some v) :: rest) none ret out =
      if 100 < v.length then .error "ENVID over 100 bytes"
      else
        match printableXtextExact v with
        | some parsed => dsnGo rest (some (asciiToString parsed)) ret out
        | none => .error "Invalid ENVID" := by
  rfl

/-- C10: `dsn_mail_params` enforces the unstated 100-byte limit on ENVID:
a parameter list containing an ENVID parameter whose value is longer than
100 bytes always yields an error (for the single-parameter list, exactly
"ENVID over 100 bytes"), while an ENVID value of at most 100 bytes that
fully parses as printable xtext is accepted and stored decoded. -/
theorem c10_dsn_envid_length_limit :
    (∀ (ps : List BParam) (name v : List Nat),
      (name, some v) ∈ ps → name.map lowerB = strBytes "envid" →
      100 < v.length → ∃ e, dsn_mail_params ps = .error e) ∧
    (∀ v : List Nat, 100 < v.length →
      dsn_mail_params [(strBytes "ENVID", some v)] =
        .error "ENVID over 100 bytes") ∧
    (∀ v d : List Nat, v.length ≤ 100 → printableXtextExact v = some d →
      dsn_mail_params [(strBytes "ENVID", some v)] =
        .ok (DSNMailParams.mk (some (asciiToString d)) none, [])) := by
  refine ⟨?_, ?_, ?_⟩
  · intro ps name v hmem hname hlen
    exact dsnGo_long_envid_error ps none none [] name v hmem hname hlen
  · intro v hlen
    unfold dsn_mail_params
    rw [dsnGo_envid_cons, if_pos hlen]
  · intro v d hle hx
    unfold dsn_mail_params
    rw [dsnGo_envid_cons, if_neg (by omega), hx]
    rfl

/-- C10 witness: a 101-byte ENVID is rejected with the length error, and a
3-byte printable ENVID is accepted and stored. -/
theorem c10_witness :
    dsn_mail_params [(strBytes "ENVID", some (List.replicate 101 97))] =
      .error "ENVID over 100 bytes" ∧
    dsn_mail_params [(strBytes "ENVID", some (strBytes "abc"))] =
      .ok (DSNMailParams.mk (some (asciiToString (strBytes "abc"))) none, []) :=
  ⟨c10_dsn_envid_length_limit.2.1 _ (by simp),
   c10_dsn_envid_length_limit.2.2 (strBytes "abc") (strBytes "abc")
     (by decide) (by rfl)⟩

end Rk
